import Mathlib

/-!
# Verification of the banking-assistant policy pipeline

Shallow embedding of the policy pipeline of the `banking-ai-chatbot`
repository (FastAPI service): PII gate, intent classifier, history
sanitizer, context assembler, prompt composer, masking transform and
post-generation compliance guardrail, together with proofs of the
specified properties.

Free-form text is modelled as `List Char`.  Python regular expressions
used by the code are compiled by hand to deterministic character
machines (they are alternations of literal words with `\s*`/`\s+`
separators and word boundaries, so no backtracking is needed; the
correspondence is noted at each definition).  Python dictionaries with
a known key set are modelled as association lists.
-/

/-- Python `\w` (ASCII range): letters, digits and underscore. -/
def isWordChar (c : Char) : Bool := c.isAlphanum || c == '_'

/-- Python `\s` (ASCII range): the whitespace characters recognised by
`str.strip()` and `\s` that occur in this code base. -/
def isSpacePy (c : Char) : Bool :=
  c == ' ' || c == '\t' || c == '\n' || c == '\r' || c == '\x0b' || c == '\x0c'

/-- Case-insensitive comparison of a subject character `c` against a
lowercase pattern character `p`, as performed by `re.IGNORECASE`. -/
def dex (c p : Char) : Bool := Char.toLower c == p

section CharLemmas

lemma char_ne_of_toNat_ne {a b : Char} (h : a.toNat ≠ b.toNat) : a ≠ b :=
  fun he => h (he ▸ rfl)

lemma toNat_ofNat_valid (n : Nat) (h : Nat.isValidChar n) : (Char.ofNat n).toNat = n := by
  unfold Char.ofNat
  rw [dif_pos h]
  rfl

lemma toLower_toNat (c : Char) :
    (Char.toLower c).toNat = if 65 ≤ c.toNat ∧ c.toNat ≤ 90 then c.toNat + 32 else c.toNat := by
  simp only [Char.toLower]
  split
  · next h => exact toNat_ofNat_valid _ (Or.inl (by omega))
  · rfl

lemma char_eq_of_toNat_eq {a b : Char} (h : a.toNat = b.toNat) : a = b :=
  Char.eq_of_val_eq (UInt32.ext h)

lemma toLower_idem (c : Char) : Char.toLower (Char.toLower c) = Char.toLower c := by
  apply char_eq_of_toNat_eq
  have h1 := toLower_toNat c
  have h2 := toLower_toNat (Char.toLower c)
  by_cases hc : 65 ≤ c.toNat ∧ c.toNat ≤ 90
  · rw [if_pos hc] at h1
    rw [h2, h1, if_neg (by omega)]
  · rw [if_neg hc] at h1
    rw [h2, h1, if_neg hc]

/-- `dex` only looks at the lower-cased subject character, hence is
invariant under lower-casing the subject. -/
lemma dex_toLower (c p : Char) : dex (Char.toLower c) p = dex c p := by
  simp only [dex, toLower_idem]

lemma isWordChar_of_toNat_alpha {c : Char}
    (h : (65 ≤ c.toNat ∧ c.toNat ≤ 90) ∨ (97 ≤ c.toNat ∧ c.toNat ≤ 122) ∨
         (48 ≤ c.toNat ∧ c.toNat ≤ 57)) : isWordChar c = true := by
  simp only [isWordChar, Char.isAlphanum, Char.isAlpha, Char.isUpper, Char.isLower,
    Char.isDigit, Bool.or_eq_true, Bool.and_eq_true, decide_eq_true_eq, ge_iff_le]
  rcases h with h | h | h
  · exact Or.inl (Or.inl (Or.inl ⟨h.1, h.2⟩))
  · exact Or.inl (Or.inl (Or.inr ⟨h.1, h.2⟩))
  · exact Or.inl (Or.inr ⟨h.1, h.2⟩)

/-- If a character case-insensitively matches an alphanumeric lowercase
pattern character, it is a word character. -/
lemma isWordChar_of_dex (c p : Char)
    (hp : (97 ≤ p.toNat ∧ p.toNat ≤ 122) ∨ (48 ≤ p.toNat ∧ p.toNat ≤ 57))
    (h : dex c p = true) : isWordChar c = true := by
  simp only [dex, beq_iff_eq] at h
  have hn := toLower_toNat c
  rw [h] at hn
  apply isWordChar_of_toNat_alpha
  by_cases hc : 65 ≤ c.toNat ∧ c.toNat ≤ 90
  · exact Or.inl hc
  · rw [if_neg hc] at hn
    rcases hp with hp | hp
    · exact Or.inr (Or.inl (by omega))
    · exact Or.inr (Or.inr (by omega))

/-- A character matching a non-letter pattern character (such as the
whitespace in a literal like `"how to"`, or a digit) equals it. -/
lemma eq_of_dex_nonalpha (c p : Char) (hp : ¬(97 ≤ p.toNat ∧ p.toNat ≤ 122))
    (h : dex c p = true) : c = p := by
  simp only [dex, beq_iff_eq] at h
  have hn := toLower_toNat c
  rw [h] at hn
  by_cases hc : 65 ≤ c.toNat ∧ c.toNat ≤ 90
  · rw [if_pos hc] at hn; omega
  · rw [if_neg hc] at hn
    exact (char_eq_of_toNat_eq hn).symm

lemma isSpacePy_toLower (c : Char) : isSpacePy (Char.toLower c) = isSpacePy c := by
  have hn := toLower_toNat c
  by_cases hc : 65 ≤ c.toNat ∧ c.toNat ≤ 90
  · rw [if_pos hc] at hn
    have hfalse : ∀ d : Char, 65 ≤ d.toNat → d.toNat ≤ 122 → isSpacePy d = false := by
      intro d h1 h2
      have l1 : (' ' : Char).toNat = 32 := rfl
      have l2 : ('\t' : Char).toNat = 9 := rfl
      have l3 : ('\n' : Char).toNat = 10 := rfl
      have l4 : ('\r' : Char).toNat = 13 := rfl
      have l5 : ('\x0b' : Char).toNat = 11 := rfl
      have l6 : ('\x0c' : Char).toNat = 12 := rfl
      simp only [isSpacePy, Bool.or_eq_false_iff, beq_eq_false_iff_ne]
      refine ⟨⟨⟨⟨⟨?_, ?_⟩, ?_⟩, ?_⟩, ?_⟩, ?_⟩ <;>
        · apply char_ne_of_toNat_ne
          omega
    rw [hfalse (Char.toLower c) (by omega) (by omega), hfalse c (by omega) (by omega)]
  · rw [if_neg hc] at hn
    rw [char_eq_of_toNat_eq hn]

lemma isDigit_toLower (c : Char) : (Char.toLower c).isDigit = c.isDigit := by
  have hn := toLower_toNat c
  by_cases hc : 65 ≤ c.toNat ∧ c.toNat ≤ 90
  · rw [if_pos hc] at hn
    have hfalse : ∀ d : Char, 65 ≤ d.toNat → d.isDigit = false := by
      intro d h1
      simp only [Char.isDigit, Bool.and_eq_false_iff]
      right
      simp only [decide_eq_false_iff_not]
      intro hle
      have h9 : d.toNat ≤ 57 := hle
      omega
    rw [hfalse (Char.toLower c) (by omega), hfalse c (by omega)]
  · rw [if_neg hc] at hn
    rw [char_eq_of_toNat_eq hn]

lemma isWordChar_toLower (c : Char) : isWordChar (Char.toLower c) = isWordChar c := by
  have hn := toLower_toNat c
  by_cases hc : 65 ≤ c.toNat ∧ c.toNat ≤ 90
  · rw [if_pos hc] at hn
    have h1 : isWordChar (Char.toLower c) = true :=
      isWordChar_of_toNat_alpha (Or.inr (Or.inl (by omega)))
    have h2 : isWordChar c = true := isWordChar_of_toNat_alpha (Or.inl hc)
    rw [h1, h2]
  · rw [if_neg hc] at hn
    rw [char_eq_of_toNat_eq hn]

end CharLemmas

/-! ## Generic deterministic character machines

Each Python regex used by `compliance.py` and `llm_stub.py` is an
alternation of literal words (with `\s+` separators and `\b`
boundaries) whose branches are distinguished by their first characters,
so matching at a position is deterministic.  We model such a regex as a
machine stepping over characters.  A match that has consumed the whole
pattern still has to check the trailing `\b`: the machine signals
`found` on seeing a non-word character (without consuming it), and
accepts at end of input via `isEnd`. -/

inductive StepR (σ : Type) where
  | fail : StepR σ
  | found : StepR σ
  | next : σ → StepR σ
deriving DecidableEq

structure CMachine (σ : Type) where
  step : σ → Char → StepR σ
  isEnd : σ → Bool
  start : σ

namespace CMachine

variable {σ σ₂ : Type}

/-- Run the machine from state `st` on `s`: the number of characters a
match consumes (the trailing boundary character is not consumed), or
`none`. -/
def run (m : CMachine σ) (st : σ) : List Char → Option Nat
  | [] => if m.isEnd st then some 0 else none
  | c :: cs =>
    match m.step st c with
    | .fail => none
    | .found => some 0
    | .next st' => (run m st' cs).map (· + 1)

/-- Run the machine over exactly `u`: either it resolves inside `u`
(`inl true`: found a match, `inl false`: failed) or it consumes all of
`u` and is left in a state. -/
def runTh (m : CMachine σ) (st : σ) : List Char → Sum Bool σ
  | [] => .inr st
  | c :: cs =>
    match m.step st c with
    | .fail => .inl false
    | .found => .inl true
    | .next st' => runTh m st' cs

/-- Attempt a match at the current position; `b` says whether the
previous character (if any) is a word character, which decides the
leading `\b` of the pattern. -/
def matchA (m : CMachine σ) (b : Bool) (s : List Char) : Option Nat :=
  if b then none else run m m.start s

/-- Does the pattern match at any position of `s` (Python `re.search`)?
`b` is the word-character status of the character preceding `s`. -/
def hasM (m : CMachine σ) : Bool → List Char → Bool
  | b, [] => (matchA m b []).isSome
  | b, c :: cs => (matchA m b (c :: cs)).isSome || hasM m (isWordChar c) cs

/-- Python `re.sub`: replace every non-overlapping match, scanning left
to right, where the replacement may depend on the matched text.
Zero-length matches cannot occur for the machines in this file (their
`start` state neither accepts the empty string nor `found`s), so only
matches of positive length are replaced. -/
def subM (m : CMachine σ) (replF : List Char → List Char) : Bool → List Char → List Char
  | _, [] => []
  | b, c :: cs =>
    match matchA m b (c :: cs) with
    | some (n + 1) =>
      replF (List.take (n + 1) (c :: cs)) ++
        subM m replF (isWordChar ((c :: cs).getD n ' ')) (List.drop (n + 1) (c :: cs))
    | _ => c :: subM m replF (isWordChar c) cs
termination_by _ s => s.length
decreasing_by
  · simp only [List.length_drop, List.length_cons]
    omega
  · simp only [List.length_cons]
    omega

variable (m : CMachine σ)

lemma run_append_of_fail {st : σ} {u : List Char} (h : runTh m st u = .inl false)
    (t : List Char) : run m st (u ++ t) = none := by
  induction u generalizing st with
  | nil => simp [runTh] at h
  | cons c cs ih =>
    rw [List.cons_append]
    cases hs : m.step st c with
    | fail => simp only [run, hs]
    | found => simp only [runTh, hs] at h; simp at h
    | next st' =>
      simp only [runTh, hs] at h
      simp only [run, hs, ih h, Option.map_none']

lemma run_append_of_found {st : σ} {u : List Char} (h : runTh m st u = .inl true)
    (t : List Char) : (run m st (u ++ t)).isSome = true := by
  induction u generalizing st with
  | nil => simp [runTh] at h
  | cons c cs ih =>
    rw [List.cons_append]
    cases hs : m.step st c with
    | fail => simp only [runTh, hs] at h; simp at h
    | found => simp only [run, hs, Option.isSome_some]
    | next st' =>
      simp only [runTh, hs] at h
      have h2 := ih h
      simp only [run, hs]
      cases hr : run m st' (cs ++ t) with
      | none => rw [hr] at h2; simp at h2
      | some n => simp

lemma run_append_of_cont {st st' : σ} {u : List Char} (h : runTh m st u = .inr st')
    (t : List Char) : run m st (u ++ t) = (run m st' t).map (· + u.length) := by
  induction u generalizing st with
  | nil =>
    simp only [runTh] at h
    cases h
    simp
  | cons c cs ih =>
    rw [List.cons_append]
    cases hs : m.step st c with
    | fail => simp only [runTh, hs] at h; simp at h
    | found => simp only [runTh, hs] at h; simp at h
    | next st₂ =>
      simp only [runTh, hs] at h
      simp only [run, hs, ih h]
      cases run m st' t <;> simp [List.length_cons]
      omega

lemma run_self_of_cont {st st' : σ} {u : List Char} (h : runTh m st u = .inr st') :
    run m st u = if m.isEnd st' then some u.length else none := by
  have h2 := run_append_of_cont m h []
  rw [List.append_nil] at h2
  rw [h2, run]
  split <;> simp

lemma run_length_le {st : σ} {s : List Char} {n : Nat} (h : run m st s = some n) :
    n ≤ s.length := by
  induction s generalizing st n with
  | nil =>
    rw [run] at h
    by_cases he : m.isEnd st
    · rw [if_pos he] at h; cases h; simp
    · rw [if_neg he] at h; cases h
  | cons c cs ih =>
    cases hs : m.step st c with
    | fail => simp only [run, hs] at h; exact Option.noConfusion h
    | found => simp only [run, hs] at h; cases h; simp
    | next st' =>
      simp only [run, hs] at h
      cases hr : run m st' cs with
      | none => rw [hr] at h; simp at h
      | some k =>
        rw [hr] at h
        simp only [Option.map_some'] at h
        cases h
        have hk := ih hr
        simp only [List.length_cons]
        omega

/-- If a match consumes `n + 1` characters, the last consumed character
is a word character (for machines whose accepting transitions are taken
on word characters only — which holds for all word-boundary-terminated
patterns in this file). -/
lemma run_last_word
    (hfound : ∀ st c, m.step st c = .found → m.isEnd st = true)
    (hdone : ∀ st c st', m.step st c = .next st' → m.isEnd st' = true → isWordChar c = true) :
    ∀ {st : σ} {s : List Char} {n : Nat}, run m st s = some (n + 1) →
      isWordChar (s.getD n ' ') = true := by
  intro st s n h
  induction s generalizing st n with
  | nil =>
    rw [run] at h
    by_cases he : m.isEnd st
    · rw [if_pos he] at h; cases h
    · rw [if_neg he] at h; cases h
  | cons c cs ih =>
    cases hs : m.step st c with
    | fail => simp only [run, hs] at h; exact Option.noConfusion h
    | found => simp only [run, hs] at h; exact Nat.noConfusion (Option.some.inj h)
    | next st' =>
      simp only [run, hs] at h
      cases hr : run m st' cs with
      | none => rw [hr] at h; simp at h
      | some k =>
        rw [hr] at h
        simp only [Option.map_some'] at h
        have hk : k = n := by injection h with h2; omega
        subst hk
        cases k with
        | zero =>
          simp only [List.getD_cons_zero]
          cases cs with
          | nil =>
            rw [run] at hr
            by_cases he : m.isEnd st'
            · exact hdone st c st' hs he
            · rw [if_neg he] at hr; cases hr
          | cons d ds =>
            cases hs2 : m.step st' d with
            | fail => simp only [run, hs2] at hr; exact Option.noConfusion hr
            | found => exact hdone st c st' hs (hfound st' d hs2)
            | next st'' =>
              simp only [run, hs2] at hr
              cases hr2 : run m st'' ds with
              | none => rw [hr2] at hr; simp at hr
              | some j => rw [hr2] at hr; simp at hr
        | succ k' =>
          simp only [List.getD_cons_succ]
          exact ih hr

/-- Substituting with a machine `m2` whose replacement text kills every
run of `m` cannot create an `m`-match where none existed. -/
lemma run_subM_none (m2 : CMachine σ₂) {replF : List Char → List Char}
    (hseam : ∀ matched st t, run m st (replF matched ++ t) = none) :
    ∀ {s : List Char} {st : σ} {b : Bool}, run m st s = none →
      run m st (subM m2 replF b s) = none := by
  intro s
  induction s with
  | nil => intro st b h; rw [subM]; exact h
  | cons c cs ih =>
    intro st b h
    have hcons : run m st (c :: subM m2 replF (isWordChar c) cs) = none := by
      cases hs : m.step st c with
      | fail => simp only [run, hs]
      | found => simp only [run, hs] at h; exact Option.noConfusion h
      | next st' =>
        simp only [run, hs] at h ⊢
        cases hr : run m st' cs with
        | some k => rw [hr] at h; simp at h
        | none => rw [ih hr]; rfl
    cases hm : matchA m2 b (c :: cs) with
    | none => rw [subM, hm]; exact hcons
    | some n =>
      cases n with
      | zero => rw [subM, hm]; exact hcons
      | succ k => rw [subM, hm]; exact hseam _ st _

/-- If there is no match anywhere, `re.sub` is the identity. -/
lemma subM_id {replF : List Char → List Char} :
    ∀ {s : List Char} {b : Bool}, hasM m b s = false → subM m replF b s = s := by
  intro s
  induction s with
  | nil => intro b _; rw [subM]
  | cons c cs ih =>
    intro b h
    rw [hasM, Bool.or_eq_false_iff] at h
    have h1 : matchA m b (c :: cs) = none := by
      cases hmm : matchA m b (c :: cs) with
      | none => rfl
      | some k => rw [hmm] at h; simp at h
    rw [subM, h1, ih h.2]

lemma hasM_suffix (m : CMachine σ) :
    ∀ {s : List Char} {b : Bool} {n : Nat}, hasM m b s = false →
      n + 1 ≤ s.length → hasM m (isWordChar (s.getD n ' ')) (s.drop (n + 1)) = false := by
  intro s
  induction s with
  | nil => intro b n _ hn; simp at hn
  | cons c cs ih =>
    intro b n h hn
    rw [hasM, Bool.or_eq_false_iff] at h
    cases n with
    | zero => simpa using h.2
    | succ k =>
      simp only [List.getD_cons_succ, List.drop_succ_cons]
      exact ih h.2 (by simp only [List.length_cons] at hn; omega)

/-- Main self-preservation theorem: after substituting away all matches
of a word-boundary pattern, no match of that pattern remains (given
that the replacement text kills the machine from any state, contains no
match itself, and ends in a word character). -/
lemma hasM_subM_self (m : CMachine σ) {repl : List Char}
    (hseam : ∀ st t, run m st (repl ++ t) = none)
    (hrepl : ∀ b t, hasM m b (repl ++ t) = hasM m true t)
    (hfound : ∀ st c, m.step st c = .found → m.isEnd st = true)
    (hdone : ∀ st c st', m.step st c = .next st' → m.isEnd st' = true → isWordChar c = true)
    (hstart : m.isEnd m.start = false) :
    ∀ (s : List Char) (b : Bool), hasM m b (subM m (fun _ => repl) b s) = false := by
  have key : ∀ (fuel : Nat) (s : List Char), s.length ≤ fuel → ∀ (b : Bool),
      hasM m b (subM m (fun _ => repl) b s) = false := by
    intro fuel
    induction fuel with
    | zero =>
      intro s hs b
      have hnil : s = [] := List.length_eq_zero.mp (by omega)
      subst hnil
      rw [subM, hasM, matchA]
      cases b with
      | true => simp
      | false => simp [run, hstart]
    | succ f ihf =>
      intro s hs b
      cases s with
      | nil =>
        rw [subM, hasM, matchA]
        cases b with
        | true => simp
        | false => simp [run, hstart]
      | cons c cs =>
        cases hm : matchA m b (c :: cs) with
        | some n =>
          cases n with
          | zero =>
            exfalso
            rw [matchA] at hm
            by_cases hb : b
            · rw [if_pos hb] at hm; cases hm
            · rw [if_neg hb] at hm
              cases hs2 : m.step m.start c with
              | fail => simp only [run, hs2] at hm; exact Option.noConfusion hm
              | found => rw [hfound _ _ hs2] at hstart; cases hstart
              | next st' =>
                simp only [run, hs2] at hm
                cases hr : run m st' cs with
                | none => rw [hr] at hm; simp at hm
                | some k => rw [hr] at hm; simp at hm
          | succ k =>
            rw [subM, hm]
            have hb : b = false := by
              rw [matchA] at hm
              by_cases hb2 : b
              · rw [if_pos hb2] at hm; cases hm
              · exact eq_false_of_ne_true hb2
            have hrun : run m m.start (c :: cs) = some (k + 1) := by
              rw [matchA, hb, if_neg (by simp)] at hm
              exact hm
            have hw : isWordChar ((c :: cs).getD k ' ') = true :=
              run_last_word m hfound hdone hrun
            rw [hrepl, hw]
            apply ihf
            have hle := run_length_le m hrun
            simp only [List.length_drop, List.length_cons] at *
            omega
        | none =>
          rw [subM, hm]
          rw [hasM, Bool.or_eq_false_iff]
          constructor
          · rw [matchA]
            by_cases hb : b
            · rw [if_pos hb]; rfl
            · rw [if_neg hb]
              rw [matchA, if_neg hb] at hm
              cases hs2 : m.step m.start c with
              | fail => simp only [run, hs2]; rfl
              | found => simp only [run, hs2] at hm; exact Option.noConfusion hm
              | next st' =>
                simp only [run, hs2] at hm ⊢
                cases hr : run m st' cs with
                | some j => rw [hr] at hm; simp at hm
                | none =>
                  rw [run_subM_none m m (fun _ st t => hseam st t) hr]
                  rfl
          · apply ihf
            simp only [List.length_cons] at hs
            omega
  intro s b
  exact key s.length s (le_refl _) b

/-- Cross-preservation: substituting matches of another pattern `m2`
cannot create a match of `m` (given that `m2`'s replacement text kills
every run of `m` and matches end in word characters). -/
lemma hasM_subM_other (m : CMachine σ) (m2 : CMachine σ₂) {repl : List Char}
    (hseam : ∀ st t, run m st (repl ++ t) = none)
    (hrepl : ∀ b t, hasM m b (repl ++ t) = hasM m true t)
    (hfound2 : ∀ st c, m2.step st c = .found → m2.isEnd st = true)
    (hdone2 : ∀ st c st', m2.step st c = .next st' → m2.isEnd st' = true → isWordChar c = true) :
    ∀ (s : List Char) (b : Bool), hasM m b s = false →
      hasM m b (subM m2 (fun _ => repl) b s) = false := by
  have key : ∀ (fuel : Nat) (s : List Char), s.length ≤ fuel → ∀ (b : Bool),
      hasM m b s = false → hasM m b (subM m2 (fun _ => repl) b s) = false := by
    intro fuel
    induction fuel with
    | zero =>
      intro s hs b h
      have hnil : s = [] := List.length_eq_zero.mp (by omega)
      subst hnil
      rw [subM]
      exact h
    | succ f ihf =>
      intro s hs b h
      cases s with
      | nil => rw [subM]; exact h
      | cons c cs =>
        rw [hasM, Bool.or_eq_false_iff] at h
        obtain ⟨h1, h2⟩ := h
        have h1n : matchA m b (c :: cs) = none := by
          cases hx : matchA m b (c :: cs) with
          | none => rfl
          | some j => rw [hx] at h1; simp at h1
        cases hm : matchA m2 b (c :: cs) with
        | some n =>
          cases n with
          | zero =>
            rw [subM, hm]
            rw [hasM, Bool.or_eq_false_iff]
            refine ⟨?_, ihf cs (by simp only [List.length_cons] at hs; omega) _ h2⟩
            rw [matchA]
            by_cases hb : b
            · rw [if_pos hb]; rfl
            · rw [if_neg hb]
              rw [matchA, if_neg hb] at h1n
              cases hs2 : m.step m.start c with
              | fail => simp only [run, hs2]; rfl
              | found => simp only [run, hs2] at h1n; exact Option.noConfusion h1n
              | next st' =>
                simp only [run, hs2] at h1n ⊢
                cases hr : run m st' cs with
                | some j => rw [hr] at h1n; simp at h1n
                | none =>
                  rw [run_subM_none m m2 (fun _ st t => hseam st t) hr]
                  rfl
          | succ k =>
            rw [subM, hm]
            have hb : b = false := by
              rw [matchA] at hm
              by_cases hb2 : b
              · rw [if_pos hb2] at hm; cases hm
              · exact eq_false_of_ne_true hb2
            have hrun2 : run m2 m2.start (c :: cs) = some (k + 1) := by
              rw [matchA, hb, if_neg (by simp)] at hm
              exact hm
            have hw : isWordChar ((c :: cs).getD k ' ') = true :=
              run_last_word m2 hfound2 hdone2 hrun2
            rw [hrepl, hw]
            apply ihf
            · have hle := run_length_le m2 hrun2
              simp only [List.length_drop, List.length_cons] at *
              omega
            · have hsuf := hasM_suffix m (s := c :: cs) (n := k)
                (by rw [hasM, Bool.or_eq_false_iff]; exact ⟨by rw [h1n]; rfl, h2⟩)
                (by have := run_length_le m2 hrun2; simpa using this)
              rw [hw] at hsuf
              exact hsuf
        | none =>
          rw [subM, hm]
          rw [hasM, Bool.or_eq_false_iff]
          refine ⟨?_, ihf cs (by simp only [List.length_cons] at hs; omega) _ h2⟩
          rw [matchA]
          by_cases hb : b
          · rw [if_pos hb]; rfl
          · rw [if_neg hb]
            rw [matchA, if_neg hb] at h1n
            cases hs2 : m.step m.start c with
            | fail => simp only [run, hs2]; rfl
            | found => simp only [run, hs2] at h1n; exact Option.noConfusion h1n
            | next st' =>
              simp only [run, hs2] at h1n ⊢
              cases hr : run m st' cs with
              | some j => rw [hr] at h1n; simp at h1n
              | none =>
                rw [run_subM_none m m2 (fun _ st t => hseam st t) hr]
                rfl
  intro s b h
  exact key s.length s (le_refl _) b h

lemma run_append_some_nonword (m : CMachine σ)
    (hef : ∀ st c, m.isEnd st = true → isWordChar c = false → m.step st c = .found) :
    ∀ {u : List Char} {st : σ} {n : Nat} {w : List Char},
      (∀ c ∈ w, isWordChar c = false) → run m st u = some n →
      run m st (u ++ w) = some n := by
  intro u
  induction u with
  | nil =>
    intro st n w hw h
    rw [run] at h
    by_cases he : m.isEnd st
    · rw [if_pos he] at h
      cases h
      cases w with
      | nil => rw [List.nil_append, run, if_pos he]
      | cons c cs =>
        have hf := hef st c he (hw c (List.mem_cons_self c cs))
        rw [List.nil_append]
        simp only [run, hf]
    · rw [if_neg he] at h; cases h
  | cons c cs ih =>
    intro st n w hw h
    rw [List.cons_append]
    cases hs : m.step st c with
    | fail => simp only [run, hs] at h; exact Option.noConfusion h
    | found => simp only [run, hs] at h ⊢; exact h
    | next st' =>
      simp only [run, hs] at h ⊢
      cases hr : run m st' cs with
      | none => rw [hr] at h; simp at h
      | some k =>
        rw [hr] at h
        rw [ih hw hr]
        exact h

/-- Removing a trailing non-word-character block cannot create a
match. -/
lemma hasM_unappend_nonword (m : CMachine σ)
    (hef : ∀ st c, m.isEnd st = true → isWordChar c = false → m.step st c = .found)
    (hstart : m.isEnd m.start = false) {w : List Char}
    (hw : ∀ c ∈ w, isWordChar c = false) :
    ∀ {u : List Char} {b : Bool}, hasM m b (u ++ w) = false → hasM m b u = false := by
  intro u
  induction u with
  | nil =>
    intro b _
    rw [hasM, matchA]
    by_cases hb : b
    · rw [if_pos hb]; rfl
    · rw [if_neg hb, run, if_neg (by rw [hstart]; simp)]; rfl
  | cons c cs ih =>
    intro b h
    rw [List.cons_append, hasM, Bool.or_eq_false_iff] at h
    obtain ⟨h1, h2⟩ := h
    rw [hasM, Bool.or_eq_false_iff]
    refine ⟨?_, ih h2⟩
    rw [matchA]
    by_cases hb : b
    · rw [if_pos hb]; rfl
    · rw [if_neg hb]
      cases hr : run m m.start (c :: cs) with
      | none => rfl
      | some n =>
        exfalso
        have h5 := run_append_some_nonword m hef hw hr
        rw [matchA, if_neg hb] at h1
        rw [List.cons_append] at h5
        rw [h5] at h1
        simp at h1

/-- Appending a block that contains no match, and on which the machine
dies from every non-accepting state, cannot create a match. -/
lemma hasM_append_tail (m : CMachine σ) {tail : List Char}
    (htail : ∀ b, hasM m b tail = false)
    (hdies : ∀ st, m.isEnd st = false → run m st tail = none) :
    ∀ {u : List Char} {b : Bool}, hasM m b u = false → hasM m b (u ++ tail) = false := by
  intro u
  induction u with
  | nil => intro b _; rw [List.nil_append]; exact htail b
  | cons c cs ih =>
    intro b h
    rw [hasM, Bool.or_eq_false_iff] at h
    obtain ⟨h1, h2⟩ := h
    rw [List.cons_append, hasM, Bool.or_eq_false_iff]
    refine ⟨?_, ih h2⟩
    rw [matchA]
    by_cases hb : b
    · rw [if_pos hb]; rfl
    · rw [if_neg hb]
      rw [matchA, if_neg hb] at h1
      rw [← List.cons_append]
      cases hth : runTh m m.start (c :: cs) with
      | inl r =>
        cases r with
        | false => rw [run_append_of_fail m hth]; rfl
        | true =>
          exfalso
          have h3 := run_append_of_found m hth []
          rw [List.append_nil] at h3
          rw [h3] at h1
          cases h1
      | inr st' =>
        rw [run_append_of_cont m hth]
        have h4 := run_self_of_cont m hth
        by_cases he : m.isEnd st'
        · rw [if_pos he] at h4
          rw [h4] at h1
          cases h1
        · rw [hdies st' (eq_false_of_ne_true he)]
          rfl

end CMachine

/-! ## Python string helpers -/

/-- Python `str.lstrip()`. -/
def pyLstrip (s : List Char) : List Char := s.dropWhile isSpacePy

/-- Python `str.rstrip()`. -/
def pyRstrip (s : List Char) : List Char := (s.reverse.dropWhile isSpacePy).reverse

/-- Python `str.strip()`. -/
def pyStrip (s : List Char) : List Char := pyRstrip (pyLstrip s)

/-- Python substring containment `needle in hay`. -/
def containsSub (needle : List Char) : List Char → Bool
  | [] => needle.isPrefixOf []
  | c :: t => needle.isPrefixOf (c :: t) || containsSub needle t

/-- Number of (possibly overlapping) occurrence positions of `needle`. -/
def countOcc (needle : List Char) : List Char → Nat
  | [] => if needle.isPrefixOf [] then 1 else 0
  | c :: t => (if needle.isPrefixOf (c :: t) then 1 else 0) + countOcc needle t

lemma isSpacePy_not_word {c : Char} (h : isSpacePy c = true) : isWordChar c = false := by
  simp only [isSpacePy, Bool.or_eq_true, beq_iff_eq] at h
  rcases h with ((((h | h) | h) | h) | h) | h <;> subst h <;> decide

lemma pyRstrip_decomp (s : List Char) :
    s = pyRstrip s ++ (s.reverse.takeWhile isSpacePy).reverse ∧
    ∀ c ∈ (s.reverse.takeWhile isSpacePy).reverse, isSpacePy c = true := by
  constructor
  · have h := List.takeWhile_append_dropWhile (p := isSpacePy) (l := s.reverse)
    calc s = s.reverse.reverse := (s.reverse_reverse).symm
    _ = (s.reverse.takeWhile isSpacePy ++ s.reverse.dropWhile isSpacePy).reverse := by rw [h]
    _ = (s.reverse.dropWhile isSpacePy).reverse ++ (s.reverse.takeWhile isSpacePy).reverse := by
        rw [List.reverse_append]
    _ = pyRstrip s ++ (s.reverse.takeWhile isSpacePy).reverse := rfl
  · intro c hc
    rw [List.mem_reverse] at hc
    exact List.mem_takeWhile_imp hc

lemma isPrefixOf_mono {needle u w : List Char} (h : needle.isPrefixOf u = true) :
    needle.isPrefixOf (u ++ w) = true := by
  induction needle generalizing u with
  | nil => simp [List.isPrefixOf]
  | cons n ns ih =>
    cases u with
    | nil => simp [List.isPrefixOf] at h
    | cons a as =>
      simp only [List.isPrefixOf, List.cons_append, Bool.and_eq_true] at h ⊢
      exact ⟨h.1, ih h.2⟩

lemma containsSub_mono_append {needle u w : List Char}
    (h : containsSub needle u = true) : containsSub needle (u ++ w) = true := by
  induction u with
  | nil =>
    rw [containsSub] at h
    cases w with
    | nil => exact h
    | cons c cs =>
      rw [List.nil_append, containsSub]
      rw [Bool.or_eq_true]
      exact Or.inl (isPrefixOf_mono h)
  | cons a as ih =>
    rw [containsSub, Bool.or_eq_true] at h
    rw [List.cons_append, containsSub, Bool.or_eq_true]
    rcases h with h | h
    · exact Or.inl (isPrefixOf_mono h)
    · exact Or.inr (ih h)

lemma countOcc_eq_zero_of_contains_false {needle hay : List Char}
    (h : containsSub needle hay = false) : countOcc needle hay = 0 := by
  induction hay with
  | nil =>
    rw [containsSub] at h
    rw [countOcc, if_neg (by rw [h]; simp)]
  | cons c t ih =>
    rw [containsSub, Bool.or_eq_false_iff] at h
    rw [countOcc, if_neg (by rw [h.1]; simp), ih h.2]

lemma isPrefixOf_length_le {needle hay : List Char}
    (h : needle.isPrefixOf hay = true) : needle.length ≤ hay.length := by
  induction needle generalizing hay with
  | nil => simp
  | cons n ns ih =>
    cases hay with
    | nil => simp [List.isPrefixOf] at h
    | cons a as =>
      simp only [List.isPrefixOf, Bool.and_eq_true] at h
      simp only [List.length_cons]
      exact Nat.succ_le_succ (ih h.2)

lemma countOcc_eq_zero_of_short {needle hay : List Char}
    (h : hay.length < needle.length) : countOcc needle hay = 0 := by
  induction hay with
  | nil =>
    rw [countOcc, if_neg]
    intro hp
    have h2 := isPrefixOf_length_le hp
    simp only [List.length_nil] at h h2
    omega
  | cons c t ih =>
    rw [countOcc, if_neg]
    · rw [ih (by simp only [List.length_cons] at h; omega)]
    · intro hp
      have := isPrefixOf_length_le hp
      omega

lemma isPrefixOf_self (l : List Char) : l.isPrefixOf l = true := by
  induction l with
  | nil => rfl
  | cons c t ih =>
    simp only [List.isPrefixOf, Bool.and_eq_true, beq_self_eq_true]
    exact ⟨trivial, ih⟩

lemma countOcc_self {needle : List Char} (h : needle ≠ []) :
    countOcc needle needle = 1 := by
  cases needle with
  | nil => cases h rfl
  | cons n ns =>
    rw [countOcc, if_pos (isPrefixOf_self _),
      countOcc_eq_zero_of_short (by simp only [List.length_cons]; omega)]

/-- A needle that does not contain `'\n'` cannot match across a
position where a `'\n'` was inserted. -/
lemma isPrefixOf_append_nl {needle u rest : List Char} (hnl : '\n' ∉ needle) :
    needle.isPrefixOf (u ++ '\n' :: rest) = needle.isPrefixOf u := by
  induction u generalizing needle with
  | nil =>
    cases needle with
    | nil => rfl
    | cons n ns =>
      rw [List.nil_append]
      simp only [List.isPrefixOf]
      have hn : (n == '\n') = false := by
        rw [beq_eq_false_iff_ne]
        intro he
        exact hnl (he ▸ List.mem_cons_self n ns)
      rw [hn]
      rfl
  | cons a as ih =>
    cases needle with
    | nil => rfl
    | cons n ns =>
      rw [List.cons_append]
      simp only [List.isPrefixOf]
      rw [ih (fun hm => hnl (List.mem_cons_of_mem n hm))]

/-- Appending the footer (`"\n\n" ++ needle`) to a text adds exactly one
occurrence of the needle, provided the needle has no newline. -/
lemma countOcc_append_footer {needle u : List Char} (hne : needle ≠ [])
    (hnl : '\n' ∉ needle) :
    countOcc needle (u ++ '\n' :: '\n' :: needle) = countOcc needle u + 1 := by
  induction u with
  | nil =>
    have h0 : countOcc needle [] = 0 := by
      rw [countOcc, if_neg]
      intro hp
      have h2 := isPrefixOf_length_le hp
      have h3 : 0 < needle.length := List.length_pos.mpr hne
      simp only [List.length_nil] at h2
      omega
    rw [List.nil_append, h0]
    have hp1 : needle.isPrefixOf ('\n' :: '\n' :: needle) = false := by
      rw [show needle.isPrefixOf ('\n' :: '\n' :: needle) =
          needle.isPrefixOf ([] ++ '\n' :: ('\n' :: needle)) from rfl]
      rw [isPrefixOf_append_nl hnl]
      cases needle with
      | nil => cases hne rfl
      | cons n ns => rfl
    have hp2 : needle.isPrefixOf ('\n' :: needle) = false := by
      rw [show needle.isPrefixOf ('\n' :: needle) =
          needle.isPrefixOf ([] ++ '\n' :: needle) from rfl]
      rw [isPrefixOf_append_nl hnl]
      cases needle with
      | nil => cases hne rfl
      | cons n ns => rfl
    rw [countOcc, if_neg (by rw [hp1]; simp), countOcc, if_neg (by rw [hp2]; simp),
      countOcc_self hne]
  | cons a as ih =>
    rw [List.cons_append, countOcc, countOcc]
    rw [show (a :: (as ++ '\n' :: '\n' :: needle)) =
        ((a :: as) ++ '\n' :: ('\n' :: needle)) from rfl]
    rw [isPrefixOf_append_nl hnl]
    rw [ih]
    omega

/-! ## compliance.py: the `_LOCK_PHRASES` regex

Python: `\b(account\s+is\s+)?(locked|blocked|suspended|disabled)\b`
with `re.IGNORECASE`.  The optional prefix starts with `a` while the
core words start with `l`, `b`, `s`, `d`; no core word is a prefix of
another, and after a greedy `\s+` the following literal starts with a
non-space character, so matching at a position never backtracks and the
regex compiles to the deterministic machine below.  State names record
how much of which literal has been consumed. -/

inductive LockSt where
  | st0
  | a1 | a2 | a3 | a4 | a5 | a6
  | wsA | wsA2
  | i1
  | wsB | wsB2
  | l1 | l2 | l3 | l4 | l5
  | b1 | b2 | b3 | b4 | b5 | b6
  | s1 | s2 | s3 | s4 | s5 | s6 | s7 | s8
  | d1 | d2 | d3 | d4 | d5 | d6 | d7
  | fin
deriving DecidableEq

def lockStep (st : LockSt) (c : Char) : StepR LockSt :=
  match st with
  | .st0 =>
    if dex c 'a' then .next .a1
    else if dex c 'l' then .next .l1
    else if dex c 'b' then .next .b1
    else if dex c 's' then .next .s1
    else if dex c 'd' then .next .d1
    else .fail
  | .a1 => if dex c 'c' then .next .a2 else .fail
  | .a2 => if dex c 'c' then .next .a3 else .fail
  | .a3 => if dex c 'o' then .next .a4 else .fail
  | .a4 => if dex c 'u' then .next .a5 else .fail
  | .a5 => if dex c 'n' then .next .a6 else .fail
  | .a6 => if dex c 't' then .next .wsA else .fail
  | .wsA => if isSpacePy c then .next .wsA2 else .fail
  | .wsA2 =>
    if isSpacePy c then .next .wsA2
    else if dex c 'i' then .next .i1 else .fail
  | .i1 => if dex c 's' then .next .wsB else .fail
  | .wsB => if isSpacePy c then .next .wsB2 else .fail
  | .wsB2 =>
    if isSpacePy c then .next .wsB2
    else if dex c 'l' then .next .l1
    else if dex c 'b' then .next .b1
    else if dex c 's' then .next .s1
    else if dex c 'd' then .next .d1
    else .fail
  | .l1 => if dex c 'o' then .next .l2 else .fail
  | .l2 => if dex c 'c' then .next .l3 else .fail
  | .l3 => if dex c 'k' then .next .l4 else .fail
  | .l4 => if dex c 'e' then .next .l5 else .fail
  | .l5 => if dex c 'd' then .next .fin else .fail
  | .b1 => if dex c 'l' then .next .b2 else .fail
  | .b2 => if dex c 'o' then .next .b3 else .fail
  | .b3 => if dex c 'c' then .next .b4 else .fail
  | .b4 => if dex c 'k' then .next .b5 else .fail
  | .b5 => if dex c 'e' then .next .b6 else .fail
  | .b6 => if dex c 'd' then .next .fin else .fail
  | .s1 => if dex c 'u' then .next .s2 else .fail
  | .s2 => if dex c 's' then .next .s3 else .fail
  | .s3 => if dex c 'p' then .next .s4 else .fail
  | .s4 => if dex c 'e' then .next .s5 else .fail
  | .s5 => if dex c 'n' then .next .s6 else .fail
  | .s6 => if dex c 'd' then .next .s7 else .fail
  | .s7 => if dex c 'e' then .next .s8 else .fail
  | .s8 => if dex c 'd' then .next .fin else .fail
  | .d1 => if dex c 'i' then .next .d2 else .fail
  | .d2 => if dex c 's' then .next .d3 else .fail
  | .d3 => if dex c 'a' then .next .d4 else .fail
  | .d4 => if dex c 'b' then .next .d5 else .fail
  | .d5 => if dex c 'l' then .next .d6 else .fail
  | .d6 => if dex c 'e' then .next .d7 else .fail
  | .d7 => if dex c 'd' then .next .fin else .fail
  | .fin => if isWordChar c then .fail else .found

def lockM : CMachine LockSt := ⟨lockStep, fun st => st == LockSt.fin, LockSt.st0⟩

lemma lockM_hfound : ∀ (st : LockSt) (c : Char),
    lockM.step st c = .found → lockM.isEnd st = true := by
  intro st c h
  cases st <;> simp only [lockM, lockStep] at h ⊢ <;> (repeat' (split at h)) <;>
    first
    | rfl
    | exact StepR.noConfusion h

lemma lockM_hdone : ∀ (st : LockSt) (c : Char) (st' : LockSt),
    lockM.step st c = .next st' → lockM.isEnd st' = true → isWordChar c = true := by
  intro st c st' h h2
  have hd : ∀ p : Char, dex c p = true → (97 ≤ p.toNat ∧ p.toNat ≤ 122) →
      isWordChar c = true := fun p hp hr => isWordChar_of_dex c p (Or.inl hr) hp
  cases st <;> simp only [lockM, lockStep] at h <;> (repeat' (split at h)) <;>
    (try exact StepR.noConfusion h) <;>
    (injection h with h3) <;> subst h3 <;> simp only [lockM] at h2 <;>
    first
    | exact absurd h2 (by decide)
    | (rename_i hc; exact hd _ hc (by decide))

lemma lockM_hef : ∀ (st : LockSt) (c : Char),
    lockM.isEnd st = true → isWordChar c = false → lockM.step st c = .found := by
  intro st c h hw
  cases st <;> simp only [lockM] at h <;> (try exact Bool.noConfusion (by exact h)) <;>
    simp only [lockM, lockStep, hw]
  rfl

lemma lockM_hstart : lockM.isEnd lockM.start = false := rfl

/-! ## compliance.py: the `_CRED_PHRASES` regex

Python: `\b(wrong|invalid|incorrect)\s+(password|credentials|otp)\b`
with `re.IGNORECASE`.  The first group's words start with `w`, `inv`,
`inc` (prefix-free), the second group's with `p`, `c`, `o`, so again a
deterministic machine. -/

inductive CredSt where
  | st0
  | w1 | w2 | w3 | w4
  | i1 | i2
  | v1 | v2 | v3 | v4
  | c1 | c2 | c3 | c4 | c5 | c6
  | wsA | wsA2
  | p1 | p2 | p3 | p4 | p5 | p6 | p7
  | k1 | k2 | k3 | k4 | k5 | k6 | k7 | k8 | k9 | k10
  | o1 | o2
  | fin
deriving DecidableEq

def credStep (st : CredSt) (c : Char) : StepR CredSt :=
  match st with
  | .st0 =>
    if dex c 'w' then .next .w1
    else if dex c 'i' then .next .i1
    else .fail
  | .w1 => if dex c 'r' then .next .w2 else .fail
  | .w2 => if dex c 'o' then .next .w3 else .fail
  | .w3 => if dex c 'n' then .next .w4 else .fail
  | .w4 => if dex c 'g' then .next .wsA else .fail
  | .i1 => if dex c 'n' then .next .i2 else .fail
  | .i2 =>
    if dex c 'v' then .next .v1
    else if dex c 'c' then .next .c1
    else .fail
  | .v1 => if dex c 'a' then .next .v2 else .fail
  | .v2 => if dex c 'l' then .next .v3 else .fail
  | .v3 => if dex c 'i' then .next .v4 else .fail
  | .v4 => if dex c 'd' then .next .wsA else .fail
  | .c1 => if dex c 'o' then .next .c2 else .fail
  | .c2 => if dex c 'r' then .next .c3 else .fail
  | .c3 => if dex c 'r' then .next .c4 else .fail
  | .c4 => if dex c 'e' then .next .c5 else .fail
  | .c5 => if dex c 'c' then .next .c6 else .fail
  | .c6 => if dex c 't' then .next .wsA else .fail
  | .wsA => if isSpacePy c then .next .wsA2 else .fail
  | .wsA2 =>
    if isSpacePy c then .next .wsA2
    else if dex c 'p' then .next .p1
    else if dex c 'c' then .next .k1
    else if dex c 'o' then .next .o1
    else .fail
  | .p1 => if dex c 'a' then .next .p2 else .fail
  | .p2 => if dex c 's' then .next .p3 else .fail
  | .p3 => if dex c 's' then .next .p4 else .fail
  | .p4 => if dex c 'w' then .next .p5 else .fail
  | .p5 => if dex c 'o' then .next .p6 else .fail
  | .p6 => if dex c 'r' then .next .p7 else .fail
  | .p7 => if dex c 'd' then .next .fin else .fail
  | .k1 => if dex c 'r' then .next .k2 else .fail
  | .k2 => if dex c 'e' then .next .k3 else .fail
  | .k3 => if dex c 'd' then .next .k4 else .fail
  | .k4 => if dex c 'e' then .next .k5 else .fail
  | .k5 => if dex c 'n' then .next .k6 else .fail
  | .k6 => if dex c 't' then .next .k7 else .fail
  | .k7 => if dex c 'i' then .next .k8 else .fail
  | .k8 => if dex c 'a' then .next .k9 else .fail
  | .k9 => if dex c 'l' then .next .k10 else .fail
  | .k10 => if dex c 's' then .next .fin else .fail
  | .o1 => if dex c 't' then .next .o2 else .fail
  | .o2 => if dex c 'p' then .next .fin else .fail
  | .fin => if isWordChar c then .fail else .found

def credM : CMachine CredSt := ⟨credStep, fun st => st == CredSt.fin, CredSt.st0⟩

lemma credM_hfound : ∀ (st : CredSt) (c : Char),
    credM.step st c = .found → credM.isEnd st = true := by
  intro st c h
  cases st <;> simp only [credM, credStep] at h ⊢ <;> (repeat' (split at h)) <;>
    first
    | rfl
    | exact StepR.noConfusion h

lemma credM_hdone : ∀ (st : CredSt) (c : Char) (st' : CredSt),
    credM.step st c = .next st' → credM.isEnd st' = true → isWordChar c = true := by
  intro st c st' h h2
  have hd : ∀ p : Char, dex c p = true → (97 ≤ p.toNat ∧ p.toNat ≤ 122) →
      isWordChar c = true := fun p hp hr => isWordChar_of_dex c p (Or.inl hr) hp
  cases st <;> simp only [credM, credStep] at h <;> (repeat' (split at h)) <;>
    (try exact StepR.noConfusion h) <;>
    (injection h with h3) <;> subst h3 <;> simp only [credM] at h2 <;>
    first
    | exact absurd h2 (by decide)
    | (rename_i hc; exact hd _ hc (by decide))

lemma credM_hef : ∀ (st : CredSt) (c : Char),
    credM.isEnd st = true → isWordChar c = false → credM.step st c = .found := by
  intro st c h hw
  cases st <;> simp only [credM] at h <;> (try exact Bool.noConfusion (by exact h)) <;>
    simp only [credM, credStep, hw]
  rfl

lemma credM_hstart : credM.isEnd credM.start = false := rfl

/-! ## compliance.py: replacement strings and guardrail -/

/-- Replacement text of `_LOCK_PHRASES.sub` (ASCII apostrophe in the
source). -/
def lockRepl : List Char :=
  "we can't confirm your account status from the available information".toList

/-- Replacement text of `_CRED_PHRASES.sub` (the source uses a Unicode
right single quotation mark in `can’t`). -/
def credRepl : List Char :=
  "we can’t confirm a credential issue based on current information".toList

/-- The clarification footer `tail` appended by
`enforce_output_policies` (the source builds it from three adjacent
string literals). -/
def complianceTail : List Char :=
  ("\n\n*Note:* Based on the current context, we avoid asserting lock/credential issues without explicit confirmation. If you can share the exact on-screen error message (no PII), I can guide you with precise next steps.").toList

/-- `tail.strip()` as used in the duplicate check. -/
def complianceTailStrip : List Char := pyStrip complianceTail

lemma complianceTail_decomp : complianceTail = '\n' :: '\n' :: complianceTailStrip := by rfl

lemma lockM_seam_lockRepl (st : LockSt) (t : List Char) :
    CMachine.run lockM st (lockRepl ++ t) = none := by
  cases st <;> rfl

lemma lockM_seam_credRepl (st : LockSt) (t : List Char) :
    CMachine.run lockM st (credRepl ++ t) = none := by
  cases st <;> rfl

lemma credM_seam_lockRepl (st : CredSt) (t : List Char) :
    CMachine.run credM st (lockRepl ++ t) = none := by
  cases st <;> rfl

lemma credM_seam_credRepl (st : CredSt) (t : List Char) :
    CMachine.run credM st (credRepl ++ t) = none := by
  cases st <;> rfl

lemma lockM_hasM_lockRepl (b : Bool) (t : List Char) :
    CMachine.hasM lockM b (lockRepl ++ t) = CMachine.hasM lockM true t := by
  cases b <;> rfl

lemma lockM_hasM_credRepl (b : Bool) (t : List Char) :
    CMachine.hasM lockM b (credRepl ++ t) = CMachine.hasM lockM true t := by
  cases b <;> rfl

lemma credM_hasM_lockRepl (b : Bool) (t : List Char) :
    CMachine.hasM credM b (lockRepl ++ t) = CMachine.hasM credM true t := by
  cases b <;> rfl

lemma credM_hasM_credRepl (b : Bool) (t : List Char) :
    CMachine.hasM credM b (credRepl ++ t) = CMachine.hasM credM true t := by
  cases b <;> rfl

set_option maxRecDepth 4000 in
lemma lockM_hasM_tail (b : Bool) : CMachine.hasM lockM b complianceTail = false := by
  cases b <;> rfl

set_option maxRecDepth 4000 in
lemma credM_hasM_tail (b : Bool) : CMachine.hasM credM b complianceTail = false := by
  cases b <;> rfl

lemma lockM_dies_tail (st : LockSt) (h : lockM.isEnd st = false) :
    CMachine.run lockM st complianceTail = none := by
  cases st <;> (try rfl)
  simp [lockM] at h

lemma credM_dies_tail (st : CredSt) (h : credM.isEnd st = false) :
    CMachine.run credM st complianceTail = none := by
  cases st <;> (try rfl)
  simp [credM] at h

lemma tailStrip_no_nl : '\n' ∉ complianceTailStrip := by decide

lemma tailStrip_ne_nil : complianceTailStrip ≠ [] := by decide

/-- Python `str.upper()` on an ASCII character. -/
def pyToUpper (c : Char) : Char :=
  if 97 ≤ c.toNat ∧ c.toNat ≤ 122 then Char.ofNat (c.toNat - 32) else c

/-- Python `str.upper()`. -/
def pyUpperL (s : List Char) : List Char := s.map pyToUpper

/-- Python `s.startswith(pre)`. -/
def pyStartsWith (s pre : String) : Bool := pre.toList.isPrefixOf s.toList

/-- A Python value stored in a masked-context dict: `None` or a
string (strings modelled as `List Char`). -/
inductive PyVal where
  | none : PyVal
  | str : List Char → PyVal
deriving DecidableEq

/-- Python `str(v)` for the values above. -/
def pyValStr : PyVal → List Char
  | .none => "None".toList
  | .str s => s

/-- Python `d.get(k, "")` on the association-list model of the
masked-context dict (the dicts built by the code have unique keys). -/
def ctxGet (d : List (String × PyVal)) (k : String) : PyVal :=
  match d.find? (fun kv => kv.1 == k) with
  | some kv => kv.2
  | Option.none => .str []

/-- `compliance._has_lock_evidence`: `masked_ctx` is `None` or a dict;
evidence is `str(status).upper() in {"LOCKED", "BLOCKED"}` or
`str(reason).upper().startswith("FAILED_")`. -/
def has_lock_evidence (masked_ctx : Option (List (String × PyVal))) : Bool :=
  let status := pyValStr (ctxGet (masked_ctx.getD []) "netbanking_status")
  let reason := pyValStr (ctxGet (masked_ctx.getD []) "reason_code")
  ((pyUpperL status == "LOCKED".toList) || (pyUpperL status == "BLOCKED".toList))
    || ("FAILED_".toList).isPrefixOf (pyUpperL reason)

/-- `compliance._should_block_claims` (`intent or ""` cannot be `None`
in the typed model). -/
def should_block_claims (intent : String)
    (masked_ctx : Option (List (String × PyVal))) : Bool :=
  if pyStartsWith intent "transactional:feature" then true
  else !(has_lock_evidence masked_ctx)

/-- `_LOCK_PHRASES.search(s)` at top level (no preceding character). -/
def lockSearch (s : List Char) : Bool := CMachine.hasM lockM false s

/-- `_CRED_PHRASES.search(s)`. -/
def credSearch (s : List Char) : Bool := CMachine.hasM credM false s

/-- `_LOCK_PHRASES.sub(lockRepl, s)`. -/
def lockSub (s : List Char) : List Char :=
  CMachine.subM lockM (fun _ => lockRepl) false s

/-- `_CRED_PHRASES.sub(credRepl, s)`. -/
def credSub (s : List Char) : List Char :=
  CMachine.subM credM (fun _ => credRepl) false s

/-- The two replacement passes of `enforce_output_policies`, returning
the rewritten text together with the flags of the two rules. -/
def guardrail_core (must_block : Bool) (a : List Char) :
    List Char × Bool × Bool :=
  let changed1 := must_block && lockSearch a
  let r1 := if changed1 then lockSub a else a
  let changed2 := must_block && credSearch r1
  let r2 := if changed2 then credSub r1 else r1
  (r2, changed1, changed2)

/-- The footer-appending step of `enforce_output_policies`: append the
clarification `tail` once, unless its stripped form is already
present. -/
def appendTailOnce (r : List Char) : List Char :=
  if containsSub complianceTailStrip r then r else pyRstrip r ++ complianceTail

/-- Guardrail diagnostics dict. -/
structure Diag where
  changed : Bool
  notes : Option (List String)
  reason : Option String
deriving DecidableEq

/-- Answer argument of `enforce_output_policies`; Python accepts any
object and returns non-strings unchanged. -/
inductive PyAnswer where
  | str : List Char → PyAnswer
  | nonStr : PyAnswer
deriving DecidableEq

/-- `compliance.enforce_output_policies`. -/
def enforce_output_policies (answer : PyAnswer) (intent : String)
    (masked_ctx : Option (List (String × PyVal))) : PyAnswer × Diag :=
  match answer with
  | .nonStr => (answer, ⟨false, Option.none, some "empty_or_non_string"⟩)
  | .str a =>
    if (pyStrip a).isEmpty then
      (answer, ⟨false, Option.none, some "empty_or_non_string"⟩)
    else
      let must_block := should_block_claims intent masked_ctx
      let core := guardrail_core must_block a
      let changed := core.2.1 || core.2.2
      let notes : List String :=
        (if core.2.1 then ["removed_unproven_lock_claim"] else []) ++
        (if core.2.2 then ["removed_unproven_credential_claim"] else [])
      let rewritten := if changed then appendTailOnce core.1 else core.1
      (.str rewritten,
        ⟨changed, if notes.isEmpty then Option.none else some notes, Option.none⟩)

/-! ## Guardrail idempotence -/

lemma lockSearch_lockSub (a : List Char) : lockSearch (lockSub a) = false :=
  CMachine.hasM_subM_self lockM lockM_seam_lockRepl lockM_hasM_lockRepl
    lockM_hfound lockM_hdone lockM_hstart a false

lemma credSearch_credSub (a : List Char) : credSearch (credSub a) = false :=
  CMachine.hasM_subM_self credM credM_seam_credRepl credM_hasM_credRepl
    credM_hfound credM_hdone credM_hstart a false

lemma lockSearch_credSub (a : List Char) (h : lockSearch a = false) :
    lockSearch (credSub a) = false :=
  CMachine.hasM_subM_other lockM credM lockM_seam_credRepl lockM_hasM_credRepl
    credM_hfound credM_hdone a false h

/-- After the two rewrite passes (when at least one fired), neither
pattern matches the result. -/
lemma guardrail_core_no_matches (mb : Bool) (a : List Char)
    (h : ((guardrail_core mb a).2.1 || (guardrail_core mb a).2.2) = true) :
    lockSearch (guardrail_core mb a).1 = false ∧
    credSearch (guardrail_core mb a).1 = false := by
  simp only [guardrail_core] at h ⊢
  cases mb with
  | false => simp at h
  | true =>
    simp only [Bool.true_and] at h ⊢
    by_cases hl : lockSearch a = true
    · by_cases hc : credSearch (lockSub a) = true
      · simp only [hl, hc, if_true]
        exact ⟨lockSearch_credSub _ (lockSearch_lockSub a), credSearch_credSub _⟩
      · simp only [hl, if_true, eq_false_of_ne_true hc, Bool.false_eq_true, if_false]
        exact ⟨lockSearch_lockSub a, trivial⟩
    · have hl2 : lockSearch a = false := eq_false_of_ne_true hl
      simp only [hl2, Bool.false_eq_true, if_false] at h ⊢
      by_cases hc : credSearch a = true
      · simp only [hc, if_true]
        exact ⟨lockSearch_credSub _ hl2, credSearch_credSub _⟩
      · rw [eq_false_of_ne_true hc] at h
        simp at h

/-- Stripping trailing whitespace preserves match-freedom. -/
lemma lockSearch_pyRstrip (r : List Char) (h : lockSearch r = false) :
    lockSearch (pyRstrip r) = false := by
  obtain ⟨hdec, hsp⟩ := pyRstrip_decomp r
  rw [hdec] at h
  exact CMachine.hasM_unappend_nonword lockM lockM_hef lockM_hstart
    (fun c hc => isSpacePy_not_word (hsp c hc)) h

lemma credSearch_pyRstrip (r : List Char) (h : credSearch r = false) :
    credSearch (pyRstrip r) = false := by
  obtain ⟨hdec, hsp⟩ := pyRstrip_decomp r
  rw [hdec] at h
  exact CMachine.hasM_unappend_nonword credM credM_hef credM_hstart
    (fun c hc => isSpacePy_not_word (hsp c hc)) h

/-- Appending the footer preserves match-freedom. -/
lemma search_appendTailOnce (r : List Char)
    (hl : lockSearch r = false) (hc : credSearch r = false) :
    lockSearch (appendTailOnce r) = false ∧ credSearch (appendTailOnce r) = false := by
  rw [appendTailOnce]
  by_cases hin : containsSub complianceTailStrip r = true
  · rw [if_pos hin]
    exact ⟨hl, hc⟩
  · rw [if_neg hin]
    constructor
    · exact CMachine.hasM_append_tail lockM lockM_hasM_tail lockM_dies_tail
        (lockSearch_pyRstrip r hl)
    · exact CMachine.hasM_append_tail credM credM_hasM_tail credM_dies_tail
        (credSearch_pyRstrip r hc)

lemma enforce_nonStr (i : String) (c : Option (List (String × PyVal))) :
    enforce_output_policies .nonStr i c =
      (.nonStr, ⟨false, Option.none, some "empty_or_non_string"⟩) := rfl

lemma enforce_blank (a : List Char) (i : String) (c : Option (List (String × PyVal)))
    (h : (pyStrip a).isEmpty = true) :
    enforce_output_policies (.str a) i c =
      (.str a, ⟨false, Option.none, some "empty_or_non_string"⟩) := by
  rw [enforce_output_policies, if_pos h]

lemma enforce_str_spec (a : List Char) (i : String) (c : Option (List (String × PyVal)))
    (h : (pyStrip a).isEmpty = false) :
    enforce_output_policies (.str a) i c =
      (.str (if ((guardrail_core (should_block_claims i c) a).2.1
                 || (guardrail_core (should_block_claims i c) a).2.2) = true
             then appendTailOnce (guardrail_core (should_block_claims i c) a).1
             else (guardrail_core (should_block_claims i c) a).1),
       ⟨(guardrail_core (should_block_claims i c) a).2.1
          || (guardrail_core (should_block_claims i c) a).2.2,
        if ((if (guardrail_core (should_block_claims i c) a).2.1 = true
             then ["removed_unproven_lock_claim"] else []) ++
            (if (guardrail_core (should_block_claims i c) a).2.2 = true
             then ["removed_unproven_credential_claim"] else [])).isEmpty = true
        then Option.none
        else some ((if (guardrail_core (should_block_claims i c) a).2.1 = true
                    then ["removed_unproven_lock_claim"] else []) ++
                   (if (guardrail_core (should_block_claims i c) a).2.2 = true
                    then ["removed_unproven_credential_claim"] else [])),
        Option.none⟩) := by
  rw [enforce_output_policies, if_neg (by rw [h]; simp)]

/-- A string on which neither phrase matches passes through the
guardrail unchanged, with `changed = false`. -/
lemma enforce_no_match (r : List Char) (i : String)
    (c : Option (List (String × PyVal)))
    (hl : lockSearch r = false) (hc : credSearch r = false) :
    (enforce_output_policies (.str r) i c).1 = .str r ∧
    (enforce_output_policies (.str r) i c).2.changed = false := by
  by_cases hb : (pyStrip r).isEmpty = true
  · rw [enforce_blank r i c hb]
    exact ⟨rfl, rfl⟩
  · rw [enforce_str_spec r i c (eq_false_of_ne_true hb)]
    have hcore : guardrail_core (should_block_claims i c) r = (r, false, false) := by
      simp only [guardrail_core, hl, hc, Bool.and_false, Bool.false_eq_true, if_false]
    simp only [hcore]
    exact ⟨rfl, rfl⟩

lemma appendTailOnce_count (r : List Char)
    (h : containsSub complianceTailStrip r = false) :
    countOcc complianceTailStrip (appendTailOnce r) = 1 := by
  rw [appendTailOnce, if_neg (by rw [h]; simp), complianceTail_decomp,
    countOcc_append_footer tailStrip_ne_nil tailStrip_no_nl]
  have h0 : containsSub complianceTailStrip (pyRstrip r) = false := by
    cases hcc : containsSub complianceTailStrip (pyRstrip r) with
    | false => rfl
    | true =>
      exfalso
      obtain ⟨hdec, _⟩ := pyRstrip_decomp r
      have h2 := containsSub_mono_append (w := (r.reverse.takeWhile isSpacePy).reverse) hcc
      rw [← hdec, h] at h2
      cases h2
  rw [countOcc_eq_zero_of_contains_false h0]

/-- C4 (amended): applying `enforce_output_policies` a second time to
the answer returned by a first application, with the same intent and
masked context, returns that answer unchanged and reports
`changed = false`; moreover the footer-appending step appends exactly
one occurrence of the clarification footer when its stripped form is
absent from the rewritten text, and leaves the text unchanged when it
is already present (so enforcement itself never duplicates the footer;
a result can contain the footer more than once only when the input
answer already did — see the counterexample). -/
theorem c4_guardrail_idempotent (a : PyAnswer) (i : String)
    (c : Option (List (String × PyVal))) :
    ((enforce_output_policies ((enforce_output_policies a i c).1) i c).1
        = (enforce_output_policies a i c).1
     ∧ (enforce_output_policies ((enforce_output_policies a i c).1) i c).2.changed = false)
  ∧ (∀ r : List Char, containsSub complianceTailStrip r = false →
        countOcc complianceTailStrip (appendTailOnce r) = 1)
  ∧ (∀ r : List Char, containsSub complianceTailStrip r = true →
        appendTailOnce r = r) := by
  refine ⟨?_, ?_, ?_⟩
  · cases a with
    | nonStr => exact ⟨rfl, rfl⟩
    | str s =>
      by_cases hb : (pyStrip s).isEmpty = true
      · have hres := enforce_blank s i c hb
        rw [hres, hres]
        exact ⟨rfl, rfl⟩
      · have hb2 : (pyStrip s).isEmpty = false := eq_false_of_ne_true hb
        by_cases hch : (((guardrail_core (should_block_claims i c) s).2.1
            || (guardrail_core (should_block_claims i c) s).2.2) = true)
        · obtain ⟨hl, hc⟩ := guardrail_core_no_matches _ s hch
          obtain ⟨hl2, hc2⟩ := search_appendTailOnce _ hl hc
          have hfst : (enforce_output_policies (.str s) i c).1 =
              .str (appendTailOnce (guardrail_core (should_block_claims i c) s).1) := by
            rw [enforce_str_spec s i c hb2, if_pos hch]
          rw [hfst]
          exact enforce_no_match _ i c hl2 hc2
        · have hch2 := eq_false_of_ne_true hch
          rw [Bool.or_eq_false_iff] at hch2
          obtain ⟨h1, h2⟩ := hch2
          have hcore : guardrail_core (should_block_claims i c) s = (s, false, false) := by
            simp only [guardrail_core] at h1 h2 ⊢
            rw [h1] at h2 ⊢
            simp only [Bool.false_eq_true, if_false] at h2 ⊢
            rw [h2]
            simp
          have hres : enforce_output_policies (.str s) i c =
              (.str s, ⟨false, Option.none, Option.none⟩) := by
            rw [enforce_str_spec s i c hb2, hcore]
            rfl
          rw [hres, hres]
          exact ⟨rfl, rfl⟩
  · exact appendTailOnce_count
  · intro r h
    rw [appendTailOnce, if_pos h]

set_option maxRecDepth 40000 in
/-- C4 counterexample: on an answer that already contains the footer
text twice (and no lock/credential phrase), the guardrail returns the
answer unchanged, so the clarification footer occurs twice in the
result — the claim "the footer appears at most once in the result" is
false as stated for every answer. -/
theorem c4_counterexample :
    (enforce_output_policies (.str (complianceTailStrip ++ complianceTailStrip))
        "knowledge" Option.none).1
      = .str (complianceTailStrip ++ complianceTailStrip)
    ∧ countOcc complianceTailStrip (complianceTailStrip ++ complianceTailStrip) = 2 := by
  constructor
  · have hl : lockSearch (complianceTailStrip ++ complianceTailStrip) = false := by decide
    have hc : credSearch (complianceTailStrip ++ complianceTailStrip) = false := by decide
    exact (enforce_no_match _ _ _ hl hc).1
  · decide

/-- Witness for the amended C4 at concrete inputs. -/
theorem c4_witness :
    ((enforce_output_policies
        ((enforce_output_policies (.str "Your account is locked.".toList)
            "transactional:feature" Option.none).1)
        "transactional:feature" Option.none).1
      = (enforce_output_policies (.str "Your account is locked.".toList)
          "transactional:feature" Option.none).1)
    ∧ countOcc complianceTailStrip (appendTailOnce []) = 1
    ∧ appendTailOnce complianceTailStrip = complianceTailStrip := by
  refine ⟨(c4_guardrail_idempotent (.str "Your account is locked.".toList)
      "transactional:feature" Option.none).1.1, ?_, ?_⟩
  · exact (c4_guardrail_idempotent (.str "Your account is locked.".toList)
      "transactional:feature" Option.none).2.1 [] (by decide)
  · exact (c4_guardrail_idempotent (.str "Your account is locked.".toList)
      "transactional:feature" Option.none).2.2 complianceTailStrip (by decide)

/-! ## C3 and C10: blocking decision and fail-closed boundary -/

lemma enforce_of_not_block (a : List Char) (i : String)
    (c : Option (List (String × PyVal))) (h : should_block_claims i c = false) :
    (enforce_output_policies (.str a) i c).1 = .str a ∧
    (enforce_output_policies (.str a) i c).2.changed = false := by
  by_cases hb : (pyStrip a).isEmpty = true
  · rw [enforce_blank a i c hb]
    exact ⟨rfl, rfl⟩
  · rw [enforce_str_spec a i c (eq_false_of_ne_true hb)]
    have hcore : guardrail_core (should_block_claims i c) a = (a, false, false) := by
      rw [h]
      simp [guardrail_core]
    rw [hcore]
    exact ⟨rfl, rfl⟩

/-- C3: `enforce_output_policies` blocks exactly as specified: blocking
is required exactly when the intent is the feature category or the
masked context lacks explicit evidence; the answer is rewritten
(`changed = true`) exactly when it is a non-blank string, blocking is
required, and one of the two vocabularies occurs; and for intent
`transactional:login` with `netbanking_status = "LOCKED"` every answer
is returned unchanged with `changed = false`. -/
theorem c3_guardrail_blocking (a : List Char) (i : String)
    (c : Option (List (String × PyVal))) :
    (should_block_claims i c
        = (pyStartsWith i "transactional:feature" || !(has_lock_evidence c)))
  ∧ ((enforce_output_policies (.str a) i c).2.changed = true ↔
       ((pyStrip a).isEmpty = false ∧ should_block_claims i c = true
          ∧ (lockSearch a || credSearch a) = true))
  ∧ (∀ d : List (String × PyVal),
        ctxGet d "netbanking_status" = .str "LOCKED".toList →
        (enforce_output_policies (.str a) "transactional:login" (some d)).1 = .str a
          ∧ (enforce_output_policies (.str a) "transactional:login"
              (some d)).2.changed = false) := by
  refine ⟨?_, ?_, ?_⟩
  · rw [should_block_claims]
    split
    · next h => rw [h]; rfl
    · next h => rw [eq_false_of_ne_true h]; rfl
  · by_cases hb : (pyStrip a).isEmpty = true
    · rw [enforce_blank a i c hb]
      simp [hb]
    · have hb2 : (pyStrip a).isEmpty = false := eq_false_of_ne_true hb
      rw [enforce_str_spec a i c hb2]
      simp only [guardrail_core, hb2]
      cases hmb : should_block_claims i c with
      | false => simp
      | true =>
        simp only [Bool.true_and, true_and]
        cases hl : lockSearch a with
        | true => simp
        | false => simp
  · intro d hd
    apply enforce_of_not_block
    have hev : has_lock_evidence (some d) = true := by
      rw [show has_lock_evidence (some d)
          = (((pyUpperL (pyValStr (ctxGet d "netbanking_status")) == "LOCKED".toList)
              || (pyUpperL (pyValStr (ctxGet d "netbanking_status")) == "BLOCKED".toList))
             || ("FAILED_".toList).isPrefixOf (pyUpperL (pyValStr (ctxGet d "reason_code"))))
          from rfl]
      rw [hd]
      rw [show (pyUpperL (pyValStr (PyVal.str "LOCKED".toList)) == "LOCKED".toList) = true
          from by decide]
      rfl
    rw [should_block_claims, if_neg (by decide), hev]
    rfl

/-- Witness for C3: a concrete locked-context call. -/
theorem c3_witness :
    (should_block_claims "transactional:login"
        (some [("netbanking_status", PyVal.str "LOCKED".toList),
               ("reason_code", PyVal.str "FAILED_OTP_3".toList),
               ("last_failed_login", PyVal.none)])
      = false)
  ∧ ((enforce_output_policies (.str "Your account is locked.".toList)
        "transactional:login"
        (some [("netbanking_status", PyVal.str "LOCKED".toList),
               ("reason_code", PyVal.str "FAILED_OTP_3".toList),
               ("last_failed_login", PyVal.none)])).1
      = .str "Your account is locked.".toList) := by
  constructor
  · have h := (c3_guardrail_blocking "Your account is locked.".toList
      "transactional:login"
      (some [("netbanking_status", PyVal.str "LOCKED".toList),
             ("reason_code", PyVal.str "FAILED_OTP_3".toList),
             ("last_failed_login", PyVal.none)])).1
    rw [h]
    decide
  · exact ((c3_guardrail_blocking "Your account is locked.".toList
      "transactional:login"
      (some [("netbanking_status", PyVal.str "LOCKED".toList),
             ("reason_code", PyVal.str "FAILED_OTP_3".toList),
             ("last_failed_login", PyVal.none)])).2.2
      [("netbanking_status", PyVal.str "LOCKED".toList),
       ("reason_code", PyVal.str "FAILED_OTP_3".toList),
       ("last_failed_login", PyVal.none)] (by decide)).1

/-- C10: the guardrail is total and fail-closed at its boundary: a
`None` masked context, or one lacking both evidence keys, counts as
absence of evidence, so blocking is required for every intent outside
the login-evidenced case; a non-string answer and a whitespace-only
answer are returned unchanged with `changed = false`. -/
theorem c10_guardrail_fail_closed (i : String) (a : List Char)
    (d : List (String × PyVal)) :
    should_block_claims i Option.none = true
  ∧ ((∀ kv ∈ d, kv.1 ≠ "netbanking_status" ∧ kv.1 ≠ "reason_code") →
       should_block_claims i (some d) = true)
  ∧ (enforce_output_policies .nonStr i (some d)
       = (.nonStr, ⟨false, Option.none, some "empty_or_non_string"⟩))
  ∧ (a.all isSpacePy = true →
       (enforce_output_policies (.str a) i (some d)).1 = .str a
         ∧ (enforce_output_policies (.str a) i (some d)).2.changed = false) := by
  refine ⟨?_, ?_, rfl, ?_⟩
  · rw [should_block_claims]
    split
    · rfl
    · rfl
  · intro hk
    have h1 : ctxGet d "netbanking_status" = .str [] := by
      rw [ctxGet, List.find?_eq_none.mpr]
      intro x hx
      simpa using (hk x hx).1
    have h2 : ctxGet d "reason_code" = .str [] := by
      rw [ctxGet, List.find?_eq_none.mpr]
      intro x hx
      simpa using (hk x hx).2
    rw [should_block_claims]
    split
    · rfl
    · rw [show has_lock_evidence (some d)
          = (((pyUpperL (pyValStr (ctxGet d "netbanking_status")) == "LOCKED".toList)
              || (pyUpperL (pyValStr (ctxGet d "netbanking_status")) == "BLOCKED".toList))
             || ("FAILED_".toList).isPrefixOf (pyUpperL (pyValStr (ctxGet d "reason_code"))))
          from rfl]
      rw [h1, h2]
      rfl
  · intro hws
    have hb : (pyStrip a).isEmpty = true := by
      have hl : pyLstrip a = [] := by
        rw [pyLstrip, List.dropWhile_eq_nil_iff]
        intro x hx
        exact (List.all_eq_true.mp hws) x hx
      rw [pyStrip, hl]
      rfl
    rw [enforce_blank a i (some d) hb]
    exact ⟨rfl, rfl⟩

/-- Witness for C10 at concrete inputs. -/
theorem c10_witness :
    should_block_claims "transactional:login" Option.none = true
  ∧ should_block_claims "knowledge" (some [("feature", PyVal.str "feature_issue".toList)]) = true
  ∧ (enforce_output_policies (.str "  \n ".toList) "knowledge"
       (some [("feature", PyVal.str "feature_issue".toList)])).1 = .str "  \n ".toList := by
  refine ⟨(c10_guardrail_fail_closed "transactional:login" [] []).1, ?_, ?_⟩
  · exact (c10_guardrail_fail_closed "knowledge" []
      [("feature", PyVal.str "feature_issue".toList)]).2.1 (by decide)
  · exact ((c10_guardrail_fail_closed "knowledge" "  \n ".toList
      [("feature", PyVal.str "feature_issue".toList)]).2.2.2 (by decide)).1

/-! ## assist.py: PII gate and intent classifier

The four intent regexes and `_PII_HINTS` are alternations of literals,
sometimes with an inner `\s*`; each `\s*` is followed by a literal
starting with a non-space character, so greedy matching is exact.  We
model an alternative as a token list and a regex as a list of
alternatives (a group like `enquir(y|ies)` is expanded into two
alternatives). -/

/-- One token of a pattern alternative: a case-insensitive literal or
`\s*`. -/
inductive Tok where
  | lit : List Char → Tok
  | ws0 : Tok
deriving DecidableEq

/-- Shorthand for a literal token. -/
def tl (s : String) : Tok := .lit s.toList

/-- Consume a case-insensitive literal, returning the rest. -/
def litCI : List Char → List Char → Option (List Char)
  | [], s => some s
  | _ :: _, [] => Option.none
  | p :: ps, c :: cs => if dex c p then litCI ps cs else Option.none

/-- Match a token sequence at the start of `s`. -/
def matchToks : List Tok → List Char → Bool
  | [], _ => true
  | .lit p :: ts, s =>
    match litCI p s with
    | some rest => matchToks ts rest
    | Option.none => false
  | .ws0 :: ts, s => matchToks ts (s.dropWhile isSpacePy)

/-- Does `f` hold at some suffix position of `s`? -/
def anyPos (f : List Char → Bool) : List Char → Bool
  | [] => f []
  | s@(_ :: cs) => f s || anyPos f cs

/-- `re.search` for an alternation of token lists. -/
def searchAlts (alts : List (List Tok)) (s : List Char) : Bool :=
  anyPos (fun u => alts.any (fun alt => matchToks alt u)) s

/-- `assist._PII_HINTS`:
`(account\s*number|card\s*number|cvv|otp|pan|ifsc|upi|aadhaar|aadhar|mobile\s*number)`,
IGNORECASE. -/
def piiHintsPat : List (List Tok) :=
  [[tl "account", .ws0, tl "number"], [tl "card", .ws0, tl "number"],
   [tl "cvv"], [tl "otp"], [tl "pan"], [tl "ifsc"], [tl "upi"],
   [tl "aadhaar"], [tl "aadhar"], [tl "mobile", .ws0, tl "number"]]

/-- Maximal number of repetitions of `\d[\s-]?` starting here; the
`_LONG_DIGITS` regex `(?:\d[\s-]?){8,}` matches at a position iff this
is at least 8 (consuming an available separator never hurts, because a
repetition must start with a digit). -/
def digitReps : List Char → Nat
  | [] => 0
  | [c] => if c.isDigit then 1 else 0
  | c :: d :: ds =>
    if c.isDigit then
      1 + (if isSpacePy d || d == '-' then digitReps ds else digitReps (d :: ds))
    else 0

/-- `assist._LONG_DIGITS.search`. -/
def longDigitsSearch (s : List Char) : Bool :=
  anyPos (fun u => decide (8 ≤ digitReps u)) s

/-- `assist._PII_HINTS.search`. -/
def piiHintsSearch (s : List Char) : Bool := searchAlts piiHintsPat s

/-- Text argument: Python accepts any object (`isinstance` check). -/
inductive PyObj where
  | str : List Char → PyObj
  | nonStr : PyObj
deriving DecidableEq

/-- `assist.contains_pii_like`. -/
def contains_pii_like : PyObj → Bool
  | .nonStr => false
  | .str t =>
    if (pyStrip t).isEmpty then false
    else piiHintsSearch t || longDigitsSearch t

/-- `assist.SAFE_PII_RESPONSE`. -/
def SAFE_PII_RESPONSE : List Char :=
  ("For your security, please don’t share account/card numbers, CVV, OTP, UPI IDs, PAN, IFSC or phone numbers here. I can guide you with general troubleshooting or connect you to secure support channels.").toList

/-- `assist._KNOWLEDGE_WORDS`. -/
def knowledge_words : List (List Tok) :=
  [[tl "how to"], [tl "what is"], [tl "faq"], [tl "policy"],
   [tl "interest rate"], [tl "charges"], [tl "limits"], [tl "kyc"],
   [tl "fd"], [tl "rd"], [tl "loan"], [tl "card pin"], [tl "reset pin"],
   [tl "debit card"], [tl "credit card"], [tl "fees"], [tl "guidelines"],
   [tl "rbi"]]

/-- `assist._TRANSACTIONAL_WORDS`. -/
def transactional_words : List (List Tok) :=
  [[tl "balance"], [tl "statement"], [tl "failed login"], [tl "netbanking"],
   [tl "locked"], [tl "blocked"], [tl "otp failed"], [tl "password reset"],
   [tl "transfer"], [tl "imps"], [tl "neft"], [tl "upi limit"],
   [tl "account status"]]

/-- `assist._FEATURE_ISSUE_WORDS`. -/
def feature_issue_words : List (List Tok) :=
  [[tl "balance", .ws0, tl "enquiry"], [tl "balance", .ws0, tl "enquiries"],
   [tl "balance", .ws0, tl "check"], [tl "view", .ws0, tl "balance"],
   [tl "mini", .ws0, tl "statement"], [tl "txn", .ws0, tl "history"],
   [tl "fund", .ws0, tl "transfer"], [tl "bill", .ws0, tl "pay"],
   [tl "card", .ws0, tl "controls"]]

/-- `assist._LOGIN_ACCESS_WORDS`. -/
def login_access_words : List (List Tok) :=
  [[tl "login"], [tl "sign", .ws0, tl "in"], [tl "otp", .ws0, tl "fail"],
   [tl "password", .ws0, tl "reset"], [tl "locked"], [tl "blocked"],
   [tl "credential"], [tl "2fa"], [tl "mfa"]]

/-- `assist.detect_intent` (`q = (query or "").strip()` inlined). -/
def detect_intent (query : List Char) : String :=
  if searchAlts login_access_words (pyStrip query) then "transactional:login"
  else if searchAlts feature_issue_words (pyStrip query) then "transactional:feature"
  else if searchAlts knowledge_words (pyStrip query) then "knowledge"
  else if searchAlts transactional_words (pyStrip query) then "transactional"
  else "knowledge"

/-! ## C5: the PII gate -/

lemma isWordChar_not_space {c : Char} (h : isWordChar c = true) : isSpacePy c = false := by
  cases hs : isSpacePy c with
  | false => rfl
  | true => rw [isSpacePy_not_word hs] at h; cases h

lemma matchToks_lit_word {p0 : Char} {p : List Char} {ts : List Tok} {u : List Char}
    (hp : 97 ≤ p0.toNat ∧ p0.toNat ≤ 122)
    (h : matchToks (.lit (p0 :: p) :: ts) u = true) :
    ∃ c ∈ u, isWordChar c = true := by
  cases u with
  | nil => rw [matchToks] at h; simp [litCI] at h
  | cons c cs =>
    refine ⟨c, List.mem_cons_self c cs, ?_⟩
    by_cases hd : dex c p0 = true
    · exact isWordChar_of_dex c p0 (Or.inl hp) hd
    · rw [matchToks, litCI, if_neg hd] at h
      cases h

lemma anyPos_exists_word {f : List Char → Bool}
    (hf : ∀ u, f u = true → ∃ c ∈ u, isWordChar c = true) :
    ∀ {s : List Char}, anyPos f s = true → ∃ c ∈ s, isWordChar c = true := by
  intro s
  induction s with
  | nil =>
    intro h
    rw [anyPos] at h
    obtain ⟨c, hc, _⟩ := hf [] h
    cases hc
  | cons c cs ih =>
    intro h
    rw [anyPos, Bool.or_eq_true] at h
    rcases h with h | h
    · exact hf _ h
    · obtain ⟨d, hd, hw⟩ := ih h
      exact ⟨d, List.mem_cons_of_mem c hd, hw⟩

lemma isDigit_isWordChar {c : Char} (h : c.isDigit = true) : isWordChar c = true := by
  apply isWordChar_of_toNat_alpha
  right; right
  simp only [Char.isDigit, Bool.and_eq_true, decide_eq_true_eq] at h
  exact ⟨h.1, h.2⟩

lemma digitReps_pos_head {u : List Char} (h : 0 < digitReps u) :
    ∃ c ∈ u, isWordChar c = true := by
  cases u with
  | nil => rw [digitReps] at h; omega
  | cons c cs =>
    refine ⟨c, List.mem_cons_self c cs, ?_⟩
    by_cases hd : c.isDigit = true
    · exact isDigit_isWordChar hd
    · exfalso
      cases cs with
      | nil => rw [digitReps, if_neg hd] at h; omega
      | cons d ds => rw [digitReps, if_neg hd] at h; omega

lemma all_space_of_pyStrip_empty {s : List Char} (h : (pyStrip s).isEmpty = true) :
    s.all isSpacePy = true := by
  rw [pyStrip, pyRstrip, List.isEmpty_iff] at h
  have h2 : (pyLstrip s).reverse.dropWhile isSpacePy = [] := by
    have h3 := congrArg List.reverse h
    simpa using h3
  rw [List.dropWhile_eq_nil_iff] at h2
  rw [List.all_eq_true]
  intro x hx
  by_cases hxl : x ∈ pyLstrip s
  · exact h2 x (List.mem_reverse.mpr hxl)
  · have hsplit : s.takeWhile isSpacePy ++ s.dropWhile isSpacePy = s :=
      List.takeWhile_append_dropWhile (p := isSpacePy) (l := s)
    rw [← hsplit] at hx
    rcases List.mem_append.mp hx with hx2 | hx2
    · exact List.mem_takeWhile_imp hx2
    · exact absurd hx2 hxl

lemma pii_search_exists_word {s : List Char}
    (h : (piiHintsSearch s || longDigitsSearch s) = true) :
    ∃ c ∈ s, isWordChar c = true := by
  rw [Bool.or_eq_true] at h
  rcases h with h | h
  · refine anyPos_exists_word ?_ h
    intro u hu
    rw [List.any_eq_true] at hu
    obtain ⟨alt, halt, hm⟩ := hu
    simp only [piiHintsPat, List.mem_cons, List.not_mem_nil, or_false] at halt
    rcases halt with h1 | h1 | h1 | h1 | h1 | h1 | h1 | h1 | h1 | h1 <;>
      subst h1 <;>
      exact matchToks_lit_word (by decide) hm
  · refine anyPos_exists_word ?_ h
    intro u hu
    rw [decide_eq_true_eq] at hu
    exact digitReps_pos_head (by omega)

/-- C5: `contains_pii_like` returns `true` for every string matched by
the keyword-hint pattern or the 8-plus-digit-run pattern (the two
regexes of the source, modelled exactly), and returns `false` for every
non-string input and for every blank (whitespace-only) string. -/
theorem c5_contains_pii_like (s : List Char) :
    ((piiHintsSearch s || longDigitsSearch s) = true →
        contains_pii_like (.str s) = true)
  ∧ contains_pii_like .nonStr = false
  ∧ (s.all isSpacePy = true → contains_pii_like (.str s) = false) := by
  refine ⟨?_, rfl, ?_⟩
  · intro h
    rw [contains_pii_like, if_neg]
    · exact h
    · intro hb
      obtain ⟨c, hc, hw⟩ := pii_search_exists_word h
      have := (List.all_eq_true.mp (all_space_of_pyStrip_empty hb)) c hc
      rw [isWordChar_not_space hw] at this
      cases this
  · intro h
    rw [contains_pii_like, if_pos]
    have hl : pyLstrip s = [] := by
      rw [pyLstrip, List.dropWhile_eq_nil_iff]
      intro x hx
      exact (List.all_eq_true.mp h) x hx
    rw [pyStrip, hl]
    rfl

/-- Witness for C5 at concrete inputs: the scenario-3 query (digit run),
a keyword query, and a blank string. -/
theorem c5_witness :
    contains_pii_like (.str "my card number is 1234567890123456".toList) = true
  ∧ contains_pii_like (.str "please check my AADHAAR".toList) = true
  ∧ contains_pii_like (.str "  \t ".toList) = false := by
  refine ⟨?_, ?_, ?_⟩
  · exact (c5_contains_pii_like "my card number is 1234567890123456".toList).1 (by decide)
  · exact (c5_contains_pii_like "please check my AADHAAR".toList).1 (by decide)
  · exact (c5_contains_pii_like "  \t ".toList).2.2 (by decide)

/-! ## C6: the intent classifier -/

lemma litCI_toLower (p u : List Char) :
    litCI p (u.map Char.toLower) = Option.map (List.map Char.toLower) (litCI p u) := by
  induction p generalizing u with
  | nil => rfl
  | cons p0 ps ih =>
    cases u with
    | nil => rfl
    | cons c cs =>
      rw [List.map_cons, litCI, litCI, dex_toLower]
      by_cases hd : dex c p0 = true
      · rw [if_pos hd, if_pos hd, ih]
      · rw [if_neg hd, if_neg hd]
        rfl

lemma dropWhile_space_toLower (u : List Char) :
    (u.map Char.toLower).dropWhile isSpacePy = (u.dropWhile isSpacePy).map Char.toLower := by
  rw [List.dropWhile_map]
  have he : (isSpacePy ∘ Char.toLower) = isSpacePy := funext isSpacePy_toLower
  rw [he]

lemma matchToks_toLower (ts : List Tok) :
    ∀ (u : List Char), matchToks ts (u.map Char.toLower) = matchToks ts u := by
  induction ts with
  | nil => intro u; rfl
  | cons t ts ih =>
    intro u
    cases t with
    | ws0 =>
      rw [matchToks, matchToks, dropWhile_space_toLower, ih]
    | lit p =>
      rw [matchToks, matchToks, litCI_toLower]
      cases litCI p u with
      | none => rfl
      | some rest => rw [Option.map_some']; exact ih rest

lemma any_matchToks_toLower (alts : List (List Tok)) (u : List Char) :
    (alts.any fun alt => matchToks alt (u.map Char.toLower))
      = alts.any fun alt => matchToks alt u := by
  induction alts with
  | nil => rfl
  | cons alt rest iha =>
    rw [List.any_cons, List.any_cons, iha, matchToks_toLower]

lemma searchAlts_toLower (alts : List (List Tok)) (s : List Char) :
    searchAlts alts (s.map Char.toLower) = searchAlts alts s := by
  rw [searchAlts, searchAlts]
  induction s with
  | nil =>
    rw [List.map_nil]
  | cons c cs ih =>
    rw [List.map_cons, anyPos, anyPos, ih]
    have h2 := any_matchToks_toLower alts (c :: cs)
    rw [List.map_cons] at h2
    rw [h2]

lemma pyStrip_toLower (q : List Char) :
    pyStrip (q.map Char.toLower) = (pyStrip q).map Char.toLower := by
  rw [pyStrip, pyStrip, pyLstrip, pyLstrip, pyRstrip, pyRstrip,
    List.dropWhile_map]
  have he : (isSpacePy ∘ Char.toLower) = isSpacePy := funext isSpacePy_toLower
  rw [he, ← List.map_reverse, List.dropWhile_map, he, ← List.map_reverse]

lemma containsSub_infix_iff {w s : List Char} :
    containsSub w s = true ↔ w <:+: s := by
  induction s with
  | nil =>
    rw [containsSub, List.isPrefixOf_iff_prefix]
    constructor
    · intro h
      exact h.isInfix
    · intro h
      have hw : w = [] := List.eq_nil_of_infix_nil h
      rw [hw]
  | cons c t ih =>
    rw [containsSub, Bool.or_eq_true, List.isPrefixOf_iff_prefix, List.infix_cons_iff, ih]

lemma infix_dropWhile_of_not {w : List Char} {p : Char → Bool}
    (hw : ∀ c ∈ w, p c = false) (hne : w ≠ []) :
    ∀ {l : List Char}, w <:+: l → w <:+: l.dropWhile p := by
  intro l
  induction l with
  | nil =>
    intro h
    exact absurd (List.eq_nil_of_infix_nil h) hne
  | cons c t ih =>
    intro h
    rcases List.infix_cons_iff.mp h with h2 | h2
    · have hpc : p c = false := by
        cases w with
        | nil => cases hne rfl
        | cons w0 ws =>
          obtain ⟨r, hr⟩ := h2
          have : w0 = c := by
            have := congrArg (fun l => l.head?) hr
            simpa using this
          rw [← this]
          exact hw w0 (List.mem_cons_self w0 ws)
      rw [List.dropWhile_cons, hpc]
      simp only [Bool.false_eq_true, if_false]
      exact h2.isInfix
    · by_cases hpc : p c = true
      · rw [List.dropWhile_cons, hpc]
        simp only [if_true]
        exact ih h2
      · rw [List.dropWhile_cons, eq_false_of_ne_true hpc]
        simp only [Bool.false_eq_true, if_false]
        exact h2.trans (List.infix_cons_iff.mpr (Or.inr (List.infix_refl t)))

lemma infix_pyStrip {w q : List Char}
    (hw : ∀ c ∈ w, isSpacePy c = false) (hne : w ≠ [])
    (h : w <:+: q) : w <:+: pyStrip q := by
  have h1 : w <:+: pyLstrip q := infix_dropWhile_of_not hw hne h
  rw [pyStrip, pyRstrip]
  rw [← List.reverse_infix]
  rw [List.reverse_reverse]
  apply infix_dropWhile_of_not
  · intro c hc
    exact hw c (List.mem_reverse.mp hc)
  · intro hr
    exact hne (by simpa using congrArg List.reverse hr)
  · rw [List.reverse_infix]
    exact h1

lemma litCI_self_append {p b : List Char}
    (hp : ∀ c ∈ p, ¬(65 ≤ c.toNat ∧ c.toNat ≤ 90)) :
    litCI p (p ++ b) = some b := by
  induction p with
  | nil => rfl
  | cons c cs ih =>
    rw [List.cons_append, litCI, if_pos, ih]
    · intro x hx
      exact hp x (List.mem_cons_of_mem c hx)
    · rw [dex, beq_iff_eq]
      have hn := toLower_toNat c
      rw [if_neg (hp c (List.mem_cons_self c cs))] at hn
      exact char_eq_of_toNat_eq hn

lemma anyPos_of_suffix {f : List Char → Bool} {u : List Char} (a : List Char)
    (hf : f u = true) : anyPos f (a ++ u) = true := by
  induction a with
  | nil =>
    cases u with
    | nil => rw [List.nil_append, anyPos]; exact hf
    | cons c cs => rw [List.nil_append, anyPos, hf]; rfl
  | cons c cs ih =>
    rw [List.cons_append, anyPos, ih]
    simp

/-- A case-normalised (lowercase) literal that occurs as a substring is
found by `searchAlts` whenever it is one of the alternatives. -/
lemma searchAlts_of_infix {w s : List Char} {alts : List (List Tok)}
    (halt : [Tok.lit w] ∈ alts)
    (hp : ∀ c ∈ w, ¬(65 ≤ c.toNat ∧ c.toNat ≤ 90))
    (h : w <:+: s) : searchAlts alts s = true := by
  obtain ⟨x, y, hxy⟩ := h
  rw [searchAlts, ← hxy, List.append_assoc]
  apply anyPos_of_suffix
  rw [List.any_eq_true]
  refine ⟨[Tok.lit w], halt, ?_⟩
  rw [matchToks, litCI_self_append hp]
  rfl

/-- C6: `detect_intent` is total into the four intent labels,
case-insensitive, and applies first-match precedence
login > feature > knowledge > transactional > default `knowledge`;
in particular any query containing `"locked"` (and possibly also
knowledge vocabulary such as `"interest rate"`) classifies as
`transactional:login`. -/
theorem c6_detect_intent (q : List Char) :
    (detect_intent q = "transactional:login" ∨ detect_intent q = "transactional:feature"
      ∨ detect_intent q = "knowledge" ∨ detect_intent q = "transactional")
  ∧ detect_intent (q.map Char.toLower) = detect_intent q
  ∧ (searchAlts login_access_words (pyStrip q) = true →
        detect_intent q = "transactional:login")
  ∧ (searchAlts login_access_words (pyStrip q) = false →
     searchAlts feature_issue_words (pyStrip q) = true →
        detect_intent q = "transactional:feature")
  ∧ (searchAlts login_access_words (pyStrip q) = false →
     searchAlts feature_issue_words (pyStrip q) = false →
     searchAlts knowledge_words (pyStrip q) = true →
        detect_intent q = "knowledge")
  ∧ (searchAlts login_access_words (pyStrip q) = false →
     searchAlts feature_issue_words (pyStrip q) = false →
     searchAlts knowledge_words (pyStrip q) = false →
     searchAlts transactional_words (pyStrip q) = true →
        detect_intent q = "transactional")
  ∧ (searchAlts login_access_words (pyStrip q) = false →
     searchAlts feature_issue_words (pyStrip q) = false →
     searchAlts knowledge_words (pyStrip q) = false →
     searchAlts transactional_words (pyStrip q) = false →
        detect_intent q = "knowledge")
  ∧ (containsSub "locked".toList q = true →
     containsSub "interest rate".toList q = true →
        detect_intent q = "transactional:login") := by
  refine ⟨?_, ?_, ?_, ?_, ?_, ?_, ?_, ?_⟩
  · rw [detect_intent]
    split
    · exact Or.inl rfl
    · split
      · exact Or.inr (Or.inl rfl)
      · split
        · exact Or.inr (Or.inr (Or.inl rfl))
        · split
          · exact Or.inr (Or.inr (Or.inr rfl))
          · exact Or.inr (Or.inr (Or.inl rfl))
  · rw [detect_intent, detect_intent, pyStrip_toLower,
      searchAlts_toLower, searchAlts_toLower, searchAlts_toLower, searchAlts_toLower]
  · intro h1
    rw [detect_intent, if_pos h1]
  · intro h1 h2
    rw [detect_intent, if_neg (by rw [h1]; simp), if_pos h2]
  · intro h1 h2 h3
    rw [detect_intent, if_neg (by rw [h1]; simp), if_neg (by rw [h2]; simp), if_pos h3]
  · intro h1 h2 h3 h4
    rw [detect_intent, if_neg (by rw [h1]; simp), if_neg (by rw [h2]; simp),
      if_neg (by rw [h3]; simp), if_pos h4]
  · intro h1 h2 h3 h4
    rw [detect_intent, if_neg (by rw [h1]; simp), if_neg (by rw [h2]; simp),
      if_neg (by rw [h3]; simp), if_neg (by rw [h4]; simp)]
  · intro hlock _
    have hinf : "locked".toList <:+: pyStrip q :=
      infix_pyStrip (by decide) (by decide) (containsSub_infix_iff.mp hlock)
    have hs : searchAlts login_access_words (pyStrip q) = true :=
      searchAlts_of_infix (by decide) (by decide) hinf
    rw [detect_intent, if_pos hs]

/-- Witness for C6 at concrete queries. -/
theorem c6_witness :
    detect_intent "my account is locked, what is the interest rate?".toList
      = "transactional:login"
  ∧ detect_intent "balance enquiry not working".toList = "transactional:feature"
  ∧ detect_intent "what are the FD interest rates".toList = "knowledge" := by
  refine ⟨?_, ?_, ?_⟩
  · exact (c6_detect_intent "my account is locked, what is the interest rate?".toList).2.2.2.2.2.2.2
      (by decide) (by decide)
  · exact (c6_detect_intent "balance enquiry not working".toList).2.2.2.1
      (by decide) (by decide)
  · exact (c6_detect_intent "what are the FD interest rates".toList).2.2.2.2.1
      (by decide) (by decide) (by decide)

/-! ## llm_stub.py: the masking transform

`re.sub(r'\b\d{6}(\d{4,6})\b', r'XXXXXX\1', text)`: a word-bounded run
of digits matches iff its length is between 10 and 12 (the greedy
group backtracks only over digits, so a longer or shorter run never
matches); the machine counts consumed digits. -/

def maskStep (k : Nat) (c : Char) : StepR Nat :=
  if c.isDigit then
    if k < 12 then .next (k + 1) else .fail
  else
    if 10 ≤ k then (if isWordChar c then .fail else .found) else .fail

def maskM : CMachine Nat := ⟨maskStep, fun k => decide (10 ≤ k ∧ k ≤ 12), 0⟩

/-- The replacement `XXXXXX\1`: the matched text is the whole digit
run, of which the first 6 digits are `\d{6}` and the rest the group. -/
def maskRepl (matched : List Char) : List Char :=
  "XXXXXX".toList ++ matched.drop 6

/-- `llm_stub.mask_sensitive_info` (the `isinstance` guard is the
identity on the typed `List Char` values that reach it). -/
def mask_sensitive_info (text : List Char) : List Char :=
  CMachine.subM maskM maskRepl false text

lemma isDigit_not_word_false {c : Char} (hw : isWordChar c = false) :
    c.isDigit = false := by
  cases hd : c.isDigit with
  | false => rfl
  | true => rw [isDigit_isWordChar hd] at hw; cases hw

lemma maskM_run_digits :
    ∀ (ds : List Char) (k : Nat) (rest : List Char),
      ds.all Char.isDigit = true → 10 ≤ k + ds.length → k + ds.length ≤ 12 →
      (match rest with | [] => True | c :: _ => isWordChar c = false) →
      CMachine.run maskM k (ds ++ rest) = some ds.length := by
  intro ds
  induction ds with
  | nil =>
    intro k rest _ h10 h12 hb
    cases rest with
    | nil =>
      rw [List.nil_append, CMachine.run]
      have hend : maskM.isEnd k = true := by
        show decide (10 ≤ k ∧ k ≤ 12) = true
        simp only [List.length_nil, Nat.add_zero] at h10 h12
        exact decide_eq_true ⟨h10, h12⟩
      rw [hend]
      simp
    | cons c cs =>
      simp only at hb
      have hstep : maskM.step k c = .found := by
        show maskStep k c = .found
        rw [maskStep, if_neg (by rw [isDigit_not_word_false hb]; simp),
          if_pos (by simp only [List.length_nil, Nat.add_zero] at h10; omega),
          if_neg (by rw [hb]; simp)]
      rw [List.nil_append]
      simp only [CMachine.run, hstep]
      rfl
  | cons d ds ih =>
    intro k rest hall h10 h12 hb
    rw [List.all_cons, Bool.and_eq_true] at hall
    have hstep : maskM.step k d = .next (k + 1) := by
      show maskStep k d = .next (k + 1)
      rw [maskStep, if_pos hall.1, if_pos (by
        simp only [List.length_cons] at h12
        omega)]
    rw [List.cons_append]
    simp only [CMachine.run, hstep]
    rw [ih (k + 1) rest hall.2
      (by simp only [List.length_cons] at h10; omega)
      (by simp only [List.length_cons] at h12; omega) hb]
    rw [Option.map_some']
    rw [List.length_cons]


/-! ## llm_stub.py: messages and the unified entry point -/

structure Msg where
  role : List Char
  content : List Char
deriving DecidableEq

/-- `llm_stub._to_messages` on a message-list prompt (the normalisation
is the identity on the typed message list; the string case is not
exercised by the route). -/
def to_messages (prompt : List Msg) : List Msg := prompt

/-- `llm_stub._mask_messages`. -/
def mask_messages (msgs : List Msg) : List Msg :=
  msgs.map (fun m => ⟨m.role, mask_sensitive_info m.content⟩)

/-- The fixed fail-safe apology returned by `call_llm` when the
provider call raises. -/
def LLM_APOLOGY : List Char :=
  "I'm sorry, I'm currently facing some technical difficulties. Please try again in a little while.".toList

/-- A retrieval chunk `{doc, source, score}`; `score` is a float that
no modelled code path reads, so it is omitted. -/
structure Chunk where
  doc : List Char
  source : Option (List Char)
deriving DecidableEq

/-- Collaborator events recorded by the model of the route: each entry
is one invocation of an external collaborator. -/
inductive Ev where
  | retrieveCall : List Char → Ev
  | cbsCall : String → Ev
  | llmCall : List Msg → Ev
deriving DecidableEq

/-- The process environment of a request: the verified JWT subject, the
RAG availability flag, and the three external collaborators (retrieval,
CBS lookup, model provider), each of which may raise.  `requestId`
stands for the generated `f"req-{uuid4().hex[:12]}"`. -/
structure Env where
  tokenUser : Option String
  ragAvailable : Bool
  retrieve : List Char → Except Unit (List Chunk)
  cbs : String → String → Except Unit (List (String × PyVal))
  generate : List Msg → Except Unit (List Char)
  serviceToken : String
  requestId : String

/-- `llm_stub.call_llm`: mask every message, invoke the provider, and
convert any exception into the fixed apology.  Also returns the list of
provider invocations made. -/
def call_llm (env : Env) (prompt : List Msg) : List Char × List Ev :=
  let masked := mask_messages (to_messages prompt)
  (match env.generate masked with
   | .ok t => t
   | .error _ => LLM_APOLOGY,
   [Ev.llmCall masked])
/-- C7: every word-bounded run of 10–12 digits has its leading 6 digits
replaced by `XXXXXX` and its trailing 4–6 digits preserved; text with
no qualifying run is returned unchanged (e.g. `"The year is 2025"`);
and `call_llm` applies this transform to the content of every message
it sends to the model. -/
theorem c7_mask_sensitive_info (ds rest : List Char) (s : List Char) :
    (ds.all Char.isDigit = true → 10 ≤ ds.length → ds.length ≤ 12 →
      (match rest with | [] => True | c :: _ => isWordChar c = false) →
      mask_sensitive_info (ds ++ rest) =
        "XXXXXX".toList ++ ds.drop 6 ++ CMachine.subM maskM maskRepl true rest)
  ∧ (CMachine.hasM maskM false s = false → mask_sensitive_info s = s)
  ∧ mask_sensitive_info "The year is 2025".toList = "The year is 2025".toList
  ∧ (∀ (env : Env) (prompt : List Msg),
      (call_llm env prompt).2
        = [Ev.llmCall (prompt.map (fun m => ⟨m.role, mask_sensitive_info m.content⟩))]) := by
  refine ⟨?_, ?_, CMachine.subM_id maskM (by decide), fun env prompt => rfl⟩
  · intro hall h10 h12 hb
    cases ds with
    | nil => simp at h10
    | cons d dtl =>
      have hrun : CMachine.run maskM 0 ((d :: dtl) ++ rest) = some (d :: dtl).length :=
        maskM_run_digits (d :: dtl) 0 rest hall (by omega) (by omega) hb
      have hmA : CMachine.matchA maskM false (d :: (dtl ++ rest))
          = some (dtl.length + 1) := by
        rw [CMachine.matchA, if_neg (by simp)]
        rw [show maskM.start = 0 from rfl]
        rw [List.cons_append] at hrun
        rw [hrun]
        rw [List.length_cons]
      have hlen : dtl.length + 1 ≤ (d :: dtl).length := by
        rw [List.length_cons]
      rw [mask_sensitive_info, List.cons_append, CMachine.subM, hmA]
      have htake : List.take (dtl.length + 1) (d :: (dtl ++ rest)) = d :: dtl := by
        rw [← List.length_cons d dtl, ← List.cons_append, List.take_left]
      have hdrop : List.drop (dtl.length + 1) (d :: (dtl ++ rest)) = rest := by
        rw [← List.length_cons d dtl, ← List.cons_append, List.drop_left]
      have hget : isWordChar ((d :: (dtl ++ rest)).getD dtl.length ' ') = true := by
        have hgd : (d :: (dtl ++ rest)).getD dtl.length ' '
            = (d :: dtl).getD dtl.length ' ' := by
          rw [← List.cons_append]
          exact List.getD_append (d :: dtl) rest ' ' dtl.length
            (by rw [List.length_cons]; omega)
        rw [hgd]
        have hlt : dtl.length < (d :: dtl).length := by rw [List.length_cons]; omega
        rw [List.getD_eq_getElem (d :: dtl) ' ' hlt]
        exact isDigit_isWordChar
          ((List.all_eq_true.mp hall) _ (List.getElem_mem hlt))
      show maskRepl (List.take (dtl.length + 1) (d :: (dtl ++ rest))) ++
          CMachine.subM maskM maskRepl
            (isWordChar ((d :: (dtl ++ rest)).getD dtl.length ' '))
            (List.drop (dtl.length + 1) (d :: (dtl ++ rest)))
        = "XXXXXX".toList ++ List.drop 6 (d :: dtl) ++ CMachine.subM maskM maskRepl true rest
      rw [htake, hdrop, hget]
      rw [maskRepl, List.append_assoc]
  · exact CMachine.subM_id maskM

/-- Witness for C7 at concrete inputs. -/
theorem c7_witness :
    mask_sensitive_info "1234567890".toList = "XXXXXX7890".toList
  ∧ mask_sensitive_info "The year is 2025".toList = "The year is 2025".toList := by
  constructor
  · have h := (c7_mask_sensitive_info "1234567890".toList [] []).1
      (by decide) (by decide) (by decide) trivial
    rw [List.append_nil] at h
    rw [h, CMachine.subM]
    decide
  · exact (c7_mask_sensitive_info [] [] "The year is 2025".toList).2.2.1

/-! ## prompt_builder.py -/

/-- `prompt_builder.SYSTEM_INSTRUCTION` (triple-quoted in the source;
ends with a newline). -/
def SYSTEM_INSTRUCTION : List Char :=
  ("You are a secure internal banking assistant.\nYou must ALWAYS:\n- Protect customer privacy. NEVER reveal, request, or infer PII (account numbers, card numbers, CVV, OTP, PAN, IFSC, UPI, Aadhaar, phone, email).\n- Follow least-privilege: use only the masked context provided; do not assume hidden data.\n- Be formal, precise, concise, and action-oriented. Prefer stepwise troubleshooting checklists.\n- If the user shares possible PII, warn once and refuse to process it.\n\nCritical anti-hallucination rules:\n- Do NOT invent balances, fees, rates, limits, or policy details.\n- Do NOT claim the customer account is locked/blocked or credentials are wrong UNLESS:\n  (a) the user explicitly said so in this conversation, OR\n  (b) the provided masked context explicitly confirms it (e.g., netbanking_status='LOCKED').\n- If information is missing from the provided context, say you don’t know and propose the safest next step.\n\nDomain scope:\n- Banking troubleshooting (NetBanking/Mobile), generic product/FAQ guidance.\n- Compliance with bank security policy at all times.\n").toList

/-- JSON string escaping for the characters that can occur in masked
context values (`json.dumps` with `ensure_ascii=False`). -/
def jsonEscape (s : List Char) : List Char :=
  s.flatMap (fun c =>
    if c = '"' then ['\\', '"']
    else if c = '\\' then ['\\', '\\']
    else if c = '\n' then ['\\', 'n']
    else if c = '\r' then ['\\', 'r']
    else if c = '\t' then ['\\', 't']
    else [c])

def jsonVal : PyVal → List Char
  | PyVal.none => "null".toList
  | PyVal.str s => '"' :: (jsonEscape s ++ ['"'])

/-- `prompt_builder._pretty_json`:
`json.dumps(d, ensure_ascii=False, separators=(",", ":"), sort_keys=True)[:1200]`. -/
def pretty_json (d : List (String × PyVal)) : List Char :=
  let sorted := d.mergeSort (fun a b => decide (a.1 ≤ b.1))
  let entries := sorted.map (fun kv =>
    '"' :: (jsonEscape kv.1.toList ++ ['"', ':'] ++ jsonVal kv.2))
  ('\x7b' :: (List.intercalate [','] entries ++ ['\x7d'])).take 1200

/-- Python `str.replace("\r\n", "\n")`. -/
def replaceCRLF : List Char → List Char
  | [] => []
  | '\r' :: '\n' :: rest => '\n' :: replaceCRLF rest
  | c :: rest => c :: replaceCRLF rest

/-- One iteration of the loop in `prompt_builder._format_rag_context`:
`enumerate(..., start=1)` is modelled by 0-based `List.enum` with `p.1 + 1`
in the `doc#{i}` fallback, which `r.get("source") or f"doc#\x7bi\x7d"`
selects when `source` is missing or empty (falsy). -/
def rag_line (p : Nat × Chunk) : Option (List Char) :=
  let src := match p.2.source with
    | some s => if s.isEmpty then "doc#".toList ++ (toString (p.1 + 1)).toList else s
    | Option.none => "doc#".toList ++ (toString (p.1 + 1)).toList
  let txt := replaceCRLF (pyStrip p.2.doc)
  if txt.isEmpty then Option.none
  else
    let txt2 := if 800 < txt.length then txt.take 800 ++ " ...".toList else txt
    some ("- [".toList ++ src ++ "] ".toList ++ txt2)

/-- Python `"\n".join(lines)`. -/
def joinNL : List (List Char) → List Char
  | [] => []
  | [l] => l
  | l :: l2 :: ls => l ++ '\n' :: joinNL (l2 :: ls)

/-- `prompt_builder._format_rag_context` with the default caps
`max_chunks = 3`, `max_chars = 1800` (and the inner 800-character
per-chunk cap inside `rag_line`). -/
def format_rag_context (retrieved : List Chunk) : List Char :=
  if retrieved.isEmpty then []
  else (joinNL ((retrieved.take 3).enum.filterMap rag_line)).take 1800

/-- `prompt_builder._carry_history` with the default caps `limit = 8`,
`max_chars_each = 800`. -/
def carry_history (history : List Msg) : List Msg :=
  let trimmed := history.drop (history.length - 8)
  trimmed.filterMap (fun m =>
    let role := (pyStrip (if m.role.isEmpty then "user".toList else m.role)).map Char.toLower
    let content := pyStrip m.content
    if content.isEmpty then Option.none
    else
      some ⟨role, if 800 < content.length then content.take 800 ++ " ...".toList else content⟩)

/-- The `[NONE]` knowledge-context marker message content. -/
def KNOWLEDGE_NONE_MARKER : List Char :=
  ("Knowledge Context: [NONE]\nYou must state that you don’t have enough information from the bank’s knowledge base to answer.").toList

/-- `prompt_builder.build_prompt`. -/
def build_prompt (query : List Char) (masked_context : List (String × PyVal))
    (history : List Msg) (intent : String) (retrieved : List Chunk) : List Msg :=
  let dyn_rules : List (List Char) :=
    (if intent == "knowledge" then
      [("For this request, you MUST answer ONLY using the 'Knowledge Context' provided below. If the Knowledge Context does not contain the answer, reply exactly once: \"I don’t have enough information from the bank’s knowledge base to answer that.\" Then suggest a safe next step. Do NOT use outside knowledge; do NOT guess.").toList]
     else []) ++
    (if intent == "transactional:feature" then
      [("This is a post-login feature issue. Blend the following sources in order:\n1) Masked CBS Context → treat as ground truth facts.\n2) Knowledge Context (if present) → use for troubleshooting steps and safe procedures.\nRules: Do NOT assert lock/blocked/credential errors unless explicitly confirmed. If facts are insufficient, ask for non-PII clarifications and propose safe next steps.").toList]
     else []) ++
    (if intent == "transactional:login" then
      [("This is an authentication/access issue. If the Masked CBS Context indicates LOCKED or FAILED_OTP, explain unblocking steps safely; otherwise ask for non-PII clarifications.").toList]
     else [])
  let sys_content :=
    if dyn_rules.isEmpty then SYSTEM_INSTRUCTION
    else SYSTEM_INSTRUCTION ++ "\n\nContext-specific rules:\n- ".toList
           ++ List.intercalate "\n- ".toList dyn_rules
  let ctx_msgs : List Msg :=
    if masked_context.isEmpty then []
    else [⟨"user".toList,
           "Masked CBS Context (non-PII JSON): ".toList ++ pretty_json masked_context⟩]
  let rag_block := format_rag_context retrieved
  let rag_msgs : List Msg :=
    if intent == "knowledge" then
      if rag_block.isEmpty then
        [⟨"user".toList, KNOWLEDGE_NONE_MARKER⟩]
      else
        [⟨"user".toList,
          "Knowledge Context (use ONLY this context to answer):\n".toList ++ rag_block⟩]
    else if intent == "transactional:feature" then
      if rag_block.isEmpty then []
      else [⟨"user".toList,
             "Knowledge Context (troubleshooting procedures):\n".toList ++ rag_block⟩]
    else
      if rag_block.isEmpty then []
      else [⟨"user".toList,
             "Knowledge Context (reference if relevant):\n".toList ++ rag_block⟩]
  ⟨"system".toList, sys_content⟩ :: (ctx_msgs ++ rag_msgs ++ carry_history history
    ++ [⟨"user".toList, pyStrip query⟩])

/-! ### C8 lemmas -/

lemma list_append_ne_nil (a b : List Char) (h : a ≠ []) : a ++ b ≠ [] := by
  cases a with
  | nil => exact absurd rfl h
  | cons x t => exact List.cons_ne_nil x (t ++ b)

lemma rag_line_ne_none (p : Nat × Chunk) (h : replaceCRLF (pyStrip p.2.doc) ≠ []) :
    rag_line p ≠ Option.none := by
  have hE : (replaceCRLF (pyStrip p.2.doc)).isEmpty = false := by
    cases hd : replaceCRLF (pyStrip p.2.doc) with
    | nil => exact absurd hd h
    | cons a t => rfl
  simp only [rag_line, hE, Bool.false_eq_true, if_false]
  intro hc
  exact Option.noConfusion hc

lemma rag_line_some_ne_nil (p : Nat × Chunk) (l : List Char)
    (h : rag_line p = some l) : l ≠ [] := by
  simp only [rag_line] at h
  split at h
  · exact Option.noConfusion h
  · injection h with h2
    intro hn
    rw [← h2] at hn
    exact list_append_ne_nil _ _
      (list_append_ne_nil _ _ (list_append_ne_nil _ _ (by decide))) hn

lemma rag_line_chunk_cap (p : Nat × Chunk) (l : List Char)
    (h : rag_line p = some l) :
    ∃ s t, l = "- [".toList ++ s ++ "] ".toList ++ t ∧ t.length ≤ 804 := by
  simp only [rag_line] at h
  split at h
  · exact Option.noConfusion h
  · injection h with h2
    refine ⟨_, _, h2.symm, ?_⟩
    split
    · rw [List.length_append, List.length_take]
      have h4 : (" ...".toList).length = 4 := rfl
      omega
    · omega

lemma joinNL_ne_nil (ls : List (List Char)) (h : ls ≠ [])
    (hall : ∀ l ∈ ls, l ≠ []) : joinNL ls ≠ [] := by
  match ls with
  | [] => exact absurd rfl h
  | [l] => exact hall l (List.mem_singleton_self l)
  | l :: l2 :: t =>
    show l ++ '\n' :: joinNL (l2 :: t) ≠ []
    exact list_append_ne_nil _ _ (hall l (List.mem_cons_self l _))

lemma take_1800_ne_nil (l : List Char) (h : l ≠ []) : l.take 1800 ≠ [] := by
  have h1 : 0 < l.length := List.length_pos.mpr h
  have h2 : 0 < (l.take 1800).length := by
    rw [List.length_take]
    omega
  exact List.ne_nil_of_length_pos h2

lemma filterMap_rag_ne_nil (l : List Chunk) :
    ∀ (k : Nat), l.any (fun r => !(replaceCRLF (pyStrip r.doc)).isEmpty) = true →
    (List.enumFrom k l).filterMap rag_line ≠ [] := by
  induction l with
  | nil => intro k h; simp at h
  | cons c t ih =>
    intro k h
    cases hr : rag_line (k, c) with
    | some b =>
      simp only [List.enumFrom, List.filterMap_cons, hr]
      exact List.cons_ne_nil _ _
    | none =>
      simp only [List.enumFrom, List.filterMap_cons, hr]
      apply ih (k + 1)
      simp only [List.any_cons] at h
      cases hfc : (!(replaceCRLF (pyStrip c.doc)).isEmpty) with
      | true =>
        exfalso
        have hne : replaceCRLF (pyStrip c.doc) ≠ [] := by
          intro he
          rw [he] at hfc
          simp at hfc
        exact rag_line_ne_none (k, c) hne hr
      | false =>
        rw [hfc, Bool.false_or] at h
        exact h

/-- C8: for intent `knowledge`, `build_prompt` always emits a
knowledge-context message: the formatted chunk block when
`_format_rag_context` is non-empty, and the explicit `[NONE]` marker
otherwise.  The block is non-empty whenever one of the FIRST THREE
retrieved chunks has non-empty post-strip text (the source slices
`retrieved[:3]` before testing chunk text, so a later non-empty chunk
cannot prevent the marker); it is empty when nothing was retrieved; it
is capped at 1800 characters, depends only on the first 3 chunks, and
each chunk line carries at most 804 characters of chunk text
(800 plus the " ..." ellipsis). -/
theorem c8_build_prompt (q : List Char) (ctx : List (String × PyVal))
    (hist : List Msg) (retrieved : List Chunk) :
    ((⟨"user".toList,
        if (format_rag_context retrieved).isEmpty then KNOWLEDGE_NONE_MARKER
        else "Knowledge Context (use ONLY this context to answer):\n".toList
               ++ format_rag_context retrieved⟩ : Msg)
      ∈ build_prompt q ctx hist "knowledge" retrieved)
    ∧ ((retrieved.take 3).any
         (fun r => !(replaceCRLF (pyStrip r.doc)).isEmpty) = true →
         format_rag_context retrieved ≠ [])
    ∧ (retrieved = [] → format_rag_context retrieved = [])
    ∧ (format_rag_context retrieved).length ≤ 1800
    ∧ format_rag_context retrieved = format_rag_context (retrieved.take 3)
    ∧ (∀ p l, rag_line p = some l →
         ∃ s t, l = "- [".toList ++ s ++ "] ".toList ++ t ∧ t.length ≤ 804) := by
  refine ⟨?_, ?_, ?_, ?_, ?_, rag_line_chunk_cap⟩
  · have key : build_prompt q ctx hist "knowledge" retrieved =
        ⟨"system".toList, _⟩ ::
          ((if ctx.isEmpty then ([] : List Msg)
            else [⟨"user".toList, _⟩]) ++
           (if (format_rag_context retrieved).isEmpty then
              [(⟨"user".toList, KNOWLEDGE_NONE_MARKER⟩ : Msg)]
            else
              [⟨"user".toList,
                "Knowledge Context (use ONLY this context to answer):\n".toList
                  ++ format_rag_context retrieved⟩]) ++
           carry_history hist ++ [⟨"user".toList, pyStrip q⟩]) := rfl
    rw [key]
    apply List.mem_cons_of_mem
    apply List.mem_append_left
    apply List.mem_append_left
    apply List.mem_append_right
    cases hB : (format_rag_context retrieved).isEmpty with
    | true => simp only [hB, if_true]; exact List.mem_singleton_self _
    | false => simp only [hB, Bool.false_eq_true, if_false]; exact List.mem_singleton_self _
  · intro h
    have hne : retrieved ≠ [] := by
      intro he
      subst he
      simp at h
    have hE : retrieved.isEmpty = false := by
      cases retrieved with
      | nil => exact absurd rfl hne
      | cons a t => rfl
    rw [format_rag_context, hE]
    simp only [Bool.false_eq_true, if_false]
    apply take_1800_ne_nil
    apply joinNL_ne_nil
    · exact filterMap_rag_ne_nil (retrieved.take 3) 0 h
    · intro l hl
      obtain ⟨a, _, hfa⟩ := List.mem_filterMap.mp hl
      exact rag_line_some_ne_nil a l hfa
  · intro h
    subst h
    rfl
  · rw [format_rag_context]
    split
    · simp
    · rw [List.length_take]
      exact Nat.min_le_left _ _
  · cases retrieved with
    | nil => rfl
    | cons a t =>
      have h1 : (a :: t : List Chunk).isEmpty = false := rfl
      have h2 : ((a :: t : List Chunk).take 3).isEmpty = false := rfl
      simp only [format_rag_context, h1, h2, Bool.false_eq_true, if_false,
        List.take_take, Nat.min_self]

/-- C8 counterexample: three retrieved chunks with empty text followed by
a fourth with non-empty text.  Some retrieved chunk has non-empty text,
yet the formatted block is empty and the knowledge-context message that
`build_prompt` emits (position 1: right after the system message, with no
masked context) is the `[NONE]` marker, not a block containing the
chunk. -/
theorem c8_counterexample :
    ([⟨[], Option.none⟩, ⟨[], Option.none⟩, ⟨[], Option.none⟩,
       ⟨("Real content").toList, some ("kb".toList)⟩] : List Chunk).any
        (fun r => !(replaceCRLF (pyStrip r.doc)).isEmpty) = true
    ∧ (([⟨[], Option.none⟩, ⟨[], Option.none⟩, ⟨[], Option.none⟩,
        ⟨("Real content").toList, some ("kb".toList)⟩] : List Chunk).take 3).any
        (fun r => !(replaceCRLF (pyStrip r.doc)).isEmpty) = false
    ∧ format_rag_context [⟨[], Option.none⟩, ⟨[], Option.none⟩, ⟨[], Option.none⟩,
        ⟨("Real content").toList, some ("kb".toList)⟩] = []
    ∧ (build_prompt ("what is the fee?").toList [] [] "knowledge"
        [⟨[], Option.none⟩, ⟨[], Option.none⟩, ⟨[], Option.none⟩,
         ⟨("Real content").toList, some ("kb".toList)⟩])[1]? =
        some ⟨"user".toList, KNOWLEDGE_NONE_MARKER⟩ := by
  refine ⟨by decide, by decide, by decide, ?_⟩
  rfl

/-! ## The assist route (`app/routes/assist.py`) -/

/-- A raw history entry as posted by the client: a dict whose `role` and
`content` keys may be absent (`dict.get` returns `None`). -/
structure HMsg where
  role : Option (List Char)
  content : Option (List Char)
deriving DecidableEq

/-- The request body `AssistRequest(session_id, customer_id, query,
history)`. -/
structure AssistRequest where
  session_id : String
  customer_id : String
  query : List Char
  history : Option (List HMsg)

/-- A raised `HTTPException(status_code, detail)`. -/
inductive HErr where
  | httpError : Nat → String → HErr
deriving DecidableEq

/-- The response dict the route returns on success. -/
structure Payload where
  request_id : String
  status : String
  message : List Char
  intent : String
  rag_used : Bool
  sources : List (List Char)
deriving DecidableEq

/-- Python `dict.get(k)` with the implicit `None` default (contrast
`ctxGet`, which models `.get(k, "")`). -/
def dictGet (d : List (String × PyVal)) (k : String) : PyVal :=
  match d.find? (fun kv => kv.1 == k) with
  | some kv => kv.2
  | Option.none => PyVal.none

/-- `assist._LOCKY = \b(locked|blocked|suspended|disabled)\b`: the lock
machine without the optional `account\s+is\s+` prefix, so from the start
state only the four bare words can begin a match; every other state
behaves exactly as in `lockStep`. -/
def lockyStep (st : LockSt) (c : Char) : StepR LockSt :=
  match st with
  | LockSt.st0 => if dex c 'a' then StepR.fail else lockStep LockSt.st0 c
  | _ => lockStep st c

def lockyM : CMachine LockSt := ⟨lockyStep, fun st => st == LockSt.fin, LockSt.st0⟩

/-- `_LOCKY.search(s)`. -/
def lockySearch (s : List Char) : Bool := CMachine.hasM lockyM false s

/-- `assist.sanitize_history`: `_CREDY` is the same pattern as
`compliance._CRED_PHRASES`, so its search is `credSearch`. -/
def sanitize_history (history : Option (List HMsg)) (intent : String) : List Msg :=
  match history with
  | Option.none => []
  | some hs =>
    hs.filterMap (fun m =>
      let role := (pyStrip (match m.role with
        | some r => if r.isEmpty then "user".toList else r
        | Option.none => "user".toList)).map Char.toLower
      let content := pyStrip ((m.content).getD [])
      if content.isEmpty then Option.none
      else if (role == "user".toList) && contains_pii_like (PyObj.str content) then
        Option.none
      else if pyStartsWith intent "transactional:feature"
              && (lockySearch content || credSearch content) then
        Option.none
      else some ⟨role, mask_sensitive_info content⟩)

/-- `assist._feature_hint`. -/
def feature_hint (query : List Char) : List Char :=
  let q := query.map Char.toLower
  if containsSub ("balance".toList) q then
    ("NetBanking balance enquiry troubleshooting").toList
  else if containsSub ("transfer".toList) q || containsSub ("imps".toList) q
          || containsSub ("neft".toList) q then
    ("Fund transfer troubleshooting").toList
  else if containsSub ("statement".toList) q then
    ("Mini statement / account statement troubleshooting").toList
  else if containsSub ("pin".toList) q
          && (containsSub ("debit".toList) q || containsSub ("credit".toList) q) then
    ("Reset debit/credit card PIN steps").toList
  else ("NetBanking feature troubleshooting steps").toList

/-- Step 5 of the route (`# 5) Prepare context depending on intent`):
the retrieval block (fail-open) followed by the intent-specific masked
context, with the trace of collaborator invocations.  A CBS failure
re-raises as `HTTPException(500, "Failed to fetch CBS data")`;
`env.serviceToken` stands for `os.getenv("SERVICE_TOKEN", "test-token")`. -/
def assemble_context (env : Env) (req : AssistRequest) (intent : String) :
    Except HErr (List Chunk × List (String × PyVal)) × List Ev :=
  let ragPart : List Chunk × List Ev :=
    if (intent == "knowledge" || intent == "transactional:feature") && env.ragAvailable then
      let rag_query := if intent == "knowledge" then req.query else feature_hint req.query
      match env.retrieve rag_query with
      | Except.ok l => (l, [Ev.retrieveCall rag_query])
      | Except.error _ => ([], [Ev.retrieveCall rag_query])
    else ([], [])
  if intent == "transactional:login" then
    match env.cbs req.customer_id env.serviceToken with
    | Except.error _ => (Except.error (HErr.httpError 500 "Failed to fetch CBS data"),
        ragPart.2 ++ [Ev.cbsCall req.customer_id])
    | Except.ok d =>
      (Except.ok (ragPart.1,
        [("netbanking_status", dictGet d "netbanking_status"),
         ("reason_code", dictGet d "reason_code"),
         ("last_failed_login", dictGet d "last_failed_login")]),
       ragPart.2 ++ [Ev.cbsCall req.customer_id])
  else if intent == "transactional:feature" then
    (Except.ok (ragPart.1,
      [("feature", PyVal.str (if containsSub ("balance".toList) (req.query.map Char.toLower)
          then "balance_enquiry".toList else "feature_issue".toList))]),
     ragPart.2)
  else if intent == "transactional" then
    match env.cbs req.customer_id env.serviceToken with
    | Except.error _ => (Except.error (HErr.httpError 500 "Failed to fetch CBS data"),
        ragPart.2 ++ [Ev.cbsCall req.customer_id])
    | Except.ok d =>
      (Except.ok (ragPart.1,
        [("netbanking_status", dictGet d "netbanking_status"),
         ("reason_code", dictGet d "reason_code")]),
       ragPart.2 ++ [Ev.cbsCall req.customer_id])
  else
    (Except.ok (ragPart.1, []), ragPart.2)

/-- The route handler `assist`: JWT check, PII gate, intent detection,
history sanitization, context assembly, prompt build, model call,
guardrail, and the response dict.  The second component is the trace of
collaborator invocations (retrieval, CBS, model). -/
def assist (env : Env) (req : AssistRequest) : Except HErr Payload × List Ev :=
  match env.tokenUser with
  | Option.none => (Except.error (HErr.httpError 401 "Unauthorized"), [])
  | some _ =>
    if contains_pii_like (PyObj.str req.query) then
      (Except.ok ⟨env.requestId, "ok", SAFE_PII_RESPONSE, "pii_deflected", false, []⟩, [])
    else
      let intent := detect_intent req.query
      let safe_history := sanitize_history req.history intent
      match assemble_context env req intent with
      | (Except.error e, evs) => (Except.error e, evs)
      | (Except.ok (retrieved, masked_ctx), evs) =>
        let prompt := build_prompt req.query masked_ctx safe_history intent retrieved
        let llm := call_llm env prompt
        let enf := enforce_output_policies (PyAnswer.str llm.1) intent (some masked_ctx)
        let sources := retrieved.filterMap (fun r => match r.source with
          | some s => if s.isEmpty then Option.none else some s
          | Option.none => Option.none)
        let status_error := match enf.1 with
          | PyAnswer.str sa => ("I'm sorry, I'm currently facing".toList).isPrefixOf sa
          | PyAnswer.nonStr => false
        let message := match enf.1 with
          | PyAnswer.str sa => sa
          | PyAnswer.nonStr => ("Sorry, something went wrong.").toList
        (Except.ok ⟨env.requestId, if status_error then "error" else "ok", message,
          intent, !retrieved.isEmpty, sources⟩, evs ++ llm.2)

/-- C1: once the JWT is verified, a query that trips the PII gate makes
the handler return the fixed deflection payload (status `"ok"`, intent
`"pii_deflected"`, message `SAFE_PII_RESPONSE`, no sources) with an
EMPTY collaborator trace: neither the CBS account-status lookup, nor the
retrieval service, nor the model is ever invoked. -/
theorem c1_pii_short_circuit (env : Env) (req : AssistRequest) (u : String)
    (h1 : env.tokenUser = some u)
    (h2 : contains_pii_like (PyObj.str req.query) = true) :
    assist env req =
      (Except.ok ⟨env.requestId, "ok", SAFE_PII_RESPONSE, "pii_deflected", false, []⟩,
       []) := by
  rw [assist, h1, h2]
  rfl

/-- C1 witness: a concrete authenticated request asking about an account
number is deflected with no collaborator invoked. -/
theorem c1_witness :
    contains_pii_like (PyObj.str ("please check my account number".toList)) = true ∧
    assist
      ⟨some "alice", true, fun _ => Except.ok [], fun _ _ => Except.ok [],
       fun _ => Except.ok [], "svc", "req-1"⟩
      ⟨"s1", "c1", "please check my account number".toList, Option.none⟩ =
      (Except.ok ⟨"req-1", "ok", SAFE_PII_RESPONSE, "pii_deflected", false, []⟩, []) :=
  ⟨by decide,
   c1_pii_short_circuit
     ⟨some "alice", true, fun _ => Except.ok [], fun _ _ => Except.ok [],
      fun _ => Except.ok [], "svc", "req-1"⟩
     ⟨"s1", "c1", "please check my account number".toList, Option.none⟩
     "alice" rfl (by decide)⟩

/-- For intent `transactional:feature`, the context assembly yields
`ok` with the single coarse `feature` tag, and the trace holds no CBS
invocation (only, at most, a retrieval). -/
lemma assemble_feature (env : Env) (req : AssistRequest) :
    ∃ r evsA, assemble_context env req "transactional:feature" =
      (Except.ok (r,
        [("feature", PyVal.str (if containsSub ("balance".toList) (req.query.map Char.toLower)
            then "balance_enquiry".toList else "feature_issue".toList))]), evsA)
      ∧ (∀ c, Ev.cbsCall c ∉ evsA) := by
  have hstep : assemble_context env req "transactional:feature" =
      (Except.ok ((if env.ragAvailable then
          match env.retrieve (feature_hint req.query) with
          | Except.ok l => (l, [Ev.retrieveCall (feature_hint req.query)])
          | Except.error _ => ([], [Ev.retrieveCall (feature_hint req.query)])
        else (([] : List Chunk), ([] : List Ev))).1,
        [("feature", PyVal.str (if containsSub ("balance".toList) (req.query.map Char.toLower)
            then "balance_enquiry".toList else "feature_issue".toList))]),
       (if env.ragAvailable then
          match env.retrieve (feature_hint req.query) with
          | Except.ok l => (l, [Ev.retrieveCall (feature_hint req.query)])
          | Except.error _ => ([], [Ev.retrieveCall (feature_hint req.query)])
        else (([] : List Chunk), ([] : List Ev))).2) := rfl
  rw [hstep]
  cases hr : env.ragAvailable with
  | false =>
    exact ⟨[], [], rfl, by intro c hc; exact absurd hc (List.not_mem_nil _)⟩
  | true =>
    cases hret : env.retrieve (feature_hint req.query) with
    | ok l =>
      exact ⟨l, [Ev.retrieveCall (feature_hint req.query)], rfl,
        fun c hc => Ev.noConfusion (List.mem_singleton.mp hc)⟩
    | error e =>
      exact ⟨[], [Ev.retrieveCall (feature_hint req.query)], rfl,
        fun c hc => Ev.noConfusion (List.mem_singleton.mp hc)⟩

/-- `detect_intent` takes one of exactly four values. -/
lemma detect_intent_cases (q : List Char) :
    detect_intent q = "transactional:login" ∨ detect_intent q = "transactional:feature"
    ∨ detect_intent q = "knowledge" ∨ detect_intent q = "transactional" := by
  rw [detect_intent]
  split
  · exact Or.inl rfl
  split
  · exact Or.inr (Or.inl rfl)
  split
  · exact Or.inr (Or.inr (Or.inl rfl))
  split
  · exact Or.inr (Or.inr (Or.inr rfl))
  · exact Or.inr (Or.inr (Or.inl rfl))

/-- When every CBS lookup succeeds, context assembly succeeds for each
of the four intents. -/
lemma assemble_ok (env : Env) (req : AssistRequest)
    (h4 : ∀ cid tok, ∃ d, env.cbs cid tok = Except.ok d) (intent : String)
    (hI : intent = "transactional:login" ∨ intent = "transactional:feature"
      ∨ intent = "knowledge" ∨ intent = "transactional") :
    ∃ r ctx evs, assemble_context env req intent = (Except.ok (r, ctx), evs) := by
  rcases hI with hI | hI | hI | hI <;> subst hI
  · obtain ⟨d, hd⟩ := h4 req.customer_id env.serviceToken
    have hstep : assemble_context env req "transactional:login" =
        (match env.cbs req.customer_id env.serviceToken with
         | Except.error _ => (Except.error (HErr.httpError 500 "Failed to fetch CBS data"),
             [Ev.cbsCall req.customer_id])
         | Except.ok d0 => (Except.ok (([] : List Chunk),
             [("netbanking_status", dictGet d0 "netbanking_status"),
              ("reason_code", dictGet d0 "reason_code"),
              ("last_failed_login", dictGet d0 "last_failed_login")]),
            [Ev.cbsCall req.customer_id])) := rfl
    rw [hstep, hd]
    exact ⟨_, _, _, rfl⟩
  · obtain ⟨r, evsA, hA, _⟩ := assemble_feature env req
    exact ⟨r, _, evsA, hA⟩
  · have hstep : assemble_context env req "knowledge" =
        (Except.ok ((if env.ragAvailable then
            match env.retrieve req.query with
            | Except.ok l => (l, [Ev.retrieveCall req.query])
            | Except.error _ => ([], [Ev.retrieveCall req.query])
          else (([] : List Chunk), ([] : List Ev))).1, ([] : List (String × PyVal))),
         (if env.ragAvailable then
            match env.retrieve req.query with
            | Except.ok l => (l, [Ev.retrieveCall req.query])
            | Except.error _ => ([], [Ev.retrieveCall req.query])
          else (([] : List Chunk), ([] : List Ev))).2) := rfl
    rw [hstep]
    exact ⟨_, _, _, rfl⟩
  · obtain ⟨d, hd⟩ := h4 req.customer_id env.serviceToken
    have hstep : assemble_context env req "transactional" =
        (match env.cbs req.customer_id env.serviceToken with
         | Except.error _ => (Except.error (HErr.httpError 500 "Failed to fetch CBS data"),
             [Ev.cbsCall req.customer_id])
         | Except.ok d0 => (Except.ok (([] : List Chunk),
             [("netbanking_status", dictGet d0 "netbanking_status"),
              ("reason_code", dictGet d0 "reason_code")]),
            [Ev.cbsCall req.customer_id])) := rfl
    rw [hstep, hd]
    exact ⟨_, _, _, rfl⟩

/-- C2: when the detected intent is `transactional:feature`, the
assembled masked context is exactly the one-key coarse feature tag
(`balance_enquiry` when the lowered query contains `balance`, else
`feature_issue`), so it contains none of the keys `netbanking_status`,
`reason_code` or `last_failed_login`, and the trace of the assembly
holds no CBS account-status invocation. -/
theorem c2_feature_context (env : Env) (req : AssistRequest)
    (hI : detect_intent req.query = "transactional:feature") :
    ∃ retrieved evs,
      assemble_context env req (detect_intent req.query) =
        (Except.ok (retrieved,
          [("feature", PyVal.str (if containsSub ("balance".toList) (req.query.map Char.toLower)
              then "balance_enquiry".toList else "feature_issue".toList))]), evs)
      ∧ (∀ c, Ev.cbsCall c ∉ evs)
      ∧ (∀ kv ∈ [("feature", PyVal.str (if containsSub ("balance".toList) (req.query.map Char.toLower)
              then "balance_enquiry".toList else "feature_issue".toList))],
          kv.1 ≠ "netbanking_status" ∧ kv.1 ≠ "reason_code" ∧ kv.1 ≠ "last_failed_login") := by
  rw [hI]
  obtain ⟨r, evsA, hA, hnc⟩ := assemble_feature env req
  refine ⟨r, evsA, hA, hnc, ?_⟩
  intro kv hkv
  rw [List.mem_singleton] at hkv
  subst hkv
  refine ⟨?_, ?_, ?_⟩
  · show ("feature" : String) ≠ "netbanking_status"
    decide
  · show ("feature" : String) ≠ "reason_code"
    decide
  · show ("feature" : String) ≠ "last_failed_login"
    decide

/-- C2 witness: a concrete feature-intent query about balance enquiry
gets only the coarse `feature = balance_enquiry` tag and no CBS call. -/
theorem c2_witness :
    detect_intent ("balance enquiry is not working".toList) = "transactional:feature" ∧
    (∃ retrieved evs,
      assemble_context
        ⟨some "alice", false, fun _ => Except.ok [], fun _ _ => Except.ok [],
         fun _ => Except.ok [], "svc", "req-2"⟩
        ⟨"s2", "c2", "balance enquiry is not working".toList, Option.none⟩
        (detect_intent ("balance enquiry is not working".toList)) =
        (Except.ok (retrieved, [("feature", PyVal.str ("balance_enquiry".toList))]), evs)
      ∧ (∀ c, Ev.cbsCall c ∉ evs)
      ∧ (∀ kv ∈ [("feature", PyVal.str ("balance_enquiry".toList))],
          kv.1 ≠ "netbanking_status" ∧ kv.1 ≠ "reason_code" ∧ kv.1 ≠ "last_failed_login")) :=
  ⟨by decide,
   c2_feature_context
     ⟨some "alice", false, fun _ => Except.ok [], fun _ _ => Except.ok [],
      fun _ => Except.ok [], "svc", "req-2"⟩
     ⟨"s2", "c2", "balance enquiry is not working".toList, Option.none⟩
     (by decide)⟩

set_option maxRecDepth 8000 in
/-- C9: when the model provider raises on every invocation, `call_llm`
swallows the exception and returns the fixed apology, and the handler
(authenticated, non-PII query, CBS healthy) still returns an `ok`
HTTP response whose payload has status `"error"` and the apology as its
message — no exception reaches the transport. -/
theorem c9_generation_failure (env : Env) (req : AssistRequest) (u : String)
    (h1 : env.tokenUser = some u)
    (h2 : contains_pii_like (PyObj.str req.query) = false)
    (h3 : ∀ msgs, env.generate msgs = Except.error ())
    (h4 : ∀ cid tok, ∃ d, env.cbs cid tok = Except.ok d) :
    (∀ prompt, (call_llm env prompt).1 = LLM_APOLOGY)
    ∧ ∃ p evs, assist env req = (Except.ok p, evs)
        ∧ p.status = "error" ∧ p.message = LLM_APOLOGY := by
  have hcall : ∀ P, call_llm env P =
      (LLM_APOLOGY, [Ev.llmCall (mask_messages (to_messages P))]) := by
    intro P
    simp only [call_llm, h3]
  refine ⟨fun P => by rw [hcall], ?_⟩
  obtain ⟨r, ctx, evs0, hA⟩ := assemble_ok env req h4 _ (detect_intent_cases req.query)
  have henf := enforce_no_match LLM_APOLOGY (detect_intent req.query) (some ctx)
    (by decide) (by decide)
  simp only [assist, h1, h2, Bool.false_eq_true, if_false, hA]
  simp only [hcall]
  simp only [henf.1]
  exact ⟨_, _, rfl, rfl, rfl⟩

set_option maxRecDepth 8000 in
/-- C9 witness: a concrete authenticated, non-PII request against a
provider that always raises yields an `ok` response with status
`"error"` and the apology message. -/
theorem c9_witness :
    contains_pii_like (PyObj.str ("how do i reset my card pin".toList)) = false ∧
    ((∀ prompt,
        (call_llm
          ⟨some "alice", true, fun _ => Except.ok [], fun _ _ => Except.ok [],
           fun _ => Except.error (), "svc", "req-9"⟩ prompt).1 = LLM_APOLOGY)
     ∧ ∃ p evs,
        assist
          ⟨some "alice", true, fun _ => Except.ok [], fun _ _ => Except.ok [],
           fun _ => Except.error (), "svc", "req-9"⟩
          ⟨"s9", "c9", "how do i reset my card pin".toList, Option.none⟩ =
          (Except.ok p, evs)
        ∧ p.status = "error" ∧ p.message = LLM_APOLOGY) :=
  ⟨by decide,
   c9_generation_failure
     ⟨some "alice", true, fun _ => Except.ok [], fun _ _ => Except.ok [],
      fun _ => Except.error (), "svc", "req-9"⟩
     ⟨"s9", "c9", "how do i reset my card pin".toList, Option.none⟩
     "alice" rfl (by decide) (fun msgs => rfl) (fun cid tok => ⟨[], rfl⟩)⟩
